import Mathlib

/-!
# bscBatchTx: batch transaction dispatcher (`main.go`)

A shallow embedding of `main.go` and a verification of its specification.

* Go strings are byte sequences (`GoString`); `len`, slicing and comparison act on bytes.
* `math/big` integers are `Int`, `uint64` values are `Nat` (no arithmetic is done on them),
  `int64` conversions are written out with explicit wrap-around.
* `sendTransaction` is embedded as a tree of calls into go-ethereum (`Prog`): every call
  the Go function makes on `*ethclient.Client`, the call to `types.SignTx` and the line it
  prints are nodes of the tree, the Go code between two calls is the Lean code between two
  nodes.  `Prog.exec` runs such a tree against an arbitrary ledger state machine and
  records the calls made; `Pool` runs the goroutines of `main` under an arbitrary
  interleaving.
-/

namespace BscBatchTx

/-! ## Go values -/

/-- A Go `byte`. -/
abbrev Byte := Fin 256

/-- A Go `string`: an immutable sequence of bytes. -/
abbrev GoString := List Byte

/-- The bytes of an ASCII literal. -/
def ascii (s : String) : GoString := s.toList.map (fun c => Fin.ofNat c.toNat)

/-- The message of a Go `error` value produced by a library or by the RPC node. -/
abbrev GoError := String

/-! ## `encoding/hex` -/

/-- The error values of `encoding/hex`: `InvalidByteError(b)` and `ErrLength`. -/
inductive HexError where
  | InvalidByte (b : Byte)
  | ErrLength
deriving DecidableEq, Repr

/-- The value of a hexadecimal digit byte (`reverseHexTable` of `encoding/hex`); `none`
stands for the table entry `0xff` of a byte that is no hexadecimal digit. -/
def fromHexChar (c : Byte) : Option Nat :=
  if 48 ≤ c.val ∧ c.val ≤ 57 then some (c.val - 48)
  else if 97 ≤ c.val ∧ c.val ≤ 102 then some (c.val - 97 + 10)
  else if 65 ≤ c.val ∧ c.val ≤ 70 then some (c.val - 65 + 10)
  else none

/-- Library model of Go `hex.DecodeString`, as `sendTransaction` uses it (the bytes decoded before an error
are dropped there): the bytes are decoded in pairs from the left; the first byte that is
no hexadecimal digit gives `InvalidByteError`, an odd length gives `ErrLength`. -/
def hexDecodeString : GoString → Except HexError (List Byte)
  | [] => .ok []
  | [p] =>
    match fromHexChar p with
    | none => .error (.InvalidByte p)
    | some _ => .error .ErrLength
  | p :: q :: rest =>
    match fromHexChar p with
    | none => .error (.InvalidByte p)
    | some a =>
      match fromHexChar q with
      | none => .error (.InvalidByte q)
      | some b =>
        match hexDecodeString rest with
        | .error e => .error e
        | .ok bs => .ok (Fin.ofNat (a * 16 + b) :: bs)

/-- The digit `hextable[n]` of `encoding/hex`, `hextable = "0123456789abcdef"`. -/
def hexDigit (n : Nat) : Byte := if n < 10 then Fin.ofNat (48 + n) else Fin.ofNat (87 + n)

/-- Library model of Go `hex.EncodeToString`: two lower-case digits per byte, high nibble first. -/
def hexEncodeToString : List Byte → GoString
  | [] => []
  | b :: bs => hexDigit (b.val / 16) :: hexDigit (b.val % 16) :: hexEncodeToString bs

/-! ## `math/big` -/

/-- Whether a byte is one of `0` .. `9`. -/
def isDecimalDigit (c : Byte) : Bool := decide (48 ≤ c.val ∧ c.val ≤ 57)

/-- The mantissa scan of `big.Int.SetString(s, 10)` together with its end-of-input check:
at least one digit, nothing but decimal digits (no underscore in a fixed base). -/
def scanMantissa10 (s : GoString) : Option Nat :=
  if s ≠ [] ∧ s.all isDecimalDigit = true then
    some (s.foldl (fun acc c => acc * 10 + (c.val - 48)) 0)
  else none

/-- Library model of Go `(*big.Int).SetString(s, 10)`: an optional sign `+` or `-`, then the mantissa; `none`
stands for the result `(nil, false)`. -/
def SetString10 (s : GoString) : Option Int :=
  match s with
  | [] => none
  | ch :: rest =>
    if ch.val = 45 then
      match scanMantissa10 rest with
      | some abs => some (-(abs : Int))
      | none => none
    else if ch.val = 43 then
      match scanMantissa10 rest with
      | some abs => some (abs : Int)
      | none => none
    else
      match scanMantissa10 (ch :: rest) with
      | some abs => some (abs : Int)
      | none => none

/-- The conversion of an integer to `int64` by two-complement wrap-around. -/
def wrapInt64 (i : Int) : Int := (i + 2 ^ 63) % 2 ^ 64 - 2 ^ 63

/-- Library model of Go `(*big.Int).Int64()`, whose code is `int64(low64(x.abs))`, negated
when `x.neg`: the low 64 bits of the magnitude, reinterpreted as `int64`,
negated (in `int64`) for a negative number. -/
def Int64 (x : Int) : Int :=
  let v := wrapInt64 ((x.natAbs % 2 ^ 64 : Nat) : Int)
  if x < 0 then wrapInt64 (-v) else v

/-! ## go-ethereum values -/

/-- A `common.Address`: 20 bytes. -/
structure Address where
  bytes : List Byte
  size : bytes.length = 20
deriving DecidableEq

/-- A `common.Hash`: 32 bytes. -/
structure Hash where
  bytes : List Byte
  size : bytes.length = 32
deriving DecidableEq

/-- `Hash.Hex()`: `0x` followed by the lower-case hexadecimal digits of the 32 bytes. -/
def Hash.Hex (h : Hash) : GoString := ascii "0x" ++ hexEncodeToString h.bytes

/-- An `ecdsa.PublicKey` on secp256k1: a curve point. -/
structure PublicKey where
  X : Nat
  Y : Nat
deriving DecidableEq

/-- An `ecdsa.PrivateKey`: the scalar `D` and its public key. -/
structure PrivateKey where
  PublicKey : PublicKey
  D : Nat
deriving DecidableEq

/-- A Go `crypto.PublicKey` interface value: an `*ecdsa.PublicKey` or a value of another
dynamic type. -/
inductive CryptoPublicKey where
  | ecdsa (k : PublicKey)
  | other
deriving DecidableEq

/-- The method `(*ecdsa.PrivateKey).Public()`: it returns `&priv.PublicKey`. -/
def PrivateKey.Public (priv : PrivateKey) : CryptoPublicKey := .ecdsa priv.PublicKey

/-- A `types.Transaction` (legacy): the fields given to `types.NewTransaction` and the
signature values. -/
structure Transaction where
  nonce : Nat
  To : Address
  amount : Int
  gasLimit : Nat
  gasPrice : Int
  data : List Byte
  V : Int
  R : Int
  S : Int
deriving DecidableEq

/-- Go `types.NewTransaction(nonce, to, amount, gasLimit, gasPrice, data)`: an unsigned
transaction. -/
def NewTransaction (nonce : Nat) (to_ : Address) (amount : Int) (gasLimit : Nat)
    (gasPrice : Int) (data : List Byte) : Transaction :=
  { nonce := nonce, To := to_, amount := amount, gasLimit := gasLimit, gasPrice := gasPrice,
    data := data, V := 0, R := 0, S := 0 }

/-- The signer `types.NewEIP155Signer(chainID)`. -/
structure EIP155Signer where
  chainId : Int
deriving DecidableEq

/-- The functions of go-ethereum that `main.go` calls and whose results the program only
passes on: they are parameters of the embedding. -/
structure Geth where
  /-- The point `d * G` of `S256().ScalarBaseMult`. -/
  ScalarBaseMult : Nat → PublicKey
  /-- The function `crypto.PubkeyToAddress`. -/
  PubkeyToAddress : PublicKey → Address
  /-- The 40 mixed-case digits that `Address.Hex()` writes after `0x` (EIP-55). -/
  checksumHex : Address → GoString
  /-- The function `common.HexToAddress`. -/
  HexToAddress : GoString → Address
  /-- The function `types.SignTx(tx, signer, prv)`. -/
  SignTx : Transaction → EIP155Signer → PrivateKey → Except GoError Transaction
  /-- The method `(*types.Transaction).Hash()`. -/
  TxHash : Transaction → Hash

/-- `Address.Hex()`: `0x` followed by the checksummed digits. -/
def Geth.AddressHex (lib : Geth) (a : Address) : GoString := ascii "0x" ++ lib.checksumHex a

/-- The order of the secp256k1 group. -/
def secp256k1N : Nat := 0xFFFFFFFFFFFFFFFFFFFFFFFFFFFFFFFEBAAEDCE6AF48A03BBFD25E8CD0364141

/-- The errors of `crypto.HexToECDSA`. -/
inductive KeyError where
  /-- Message `invalid hex character %q in private key`. -/
  | invalidHexCharacter (b : Byte)
  /-- Message `invalid hex data for private key`. -/
  | invalidHexData
  /-- Message `invalid length, need 256 bits`. -/
  | invalidLength
  /-- Message `invalid private key, >=N`. -/
  | notBelowN
  /-- Message `invalid private key, zero or negative`. -/
  | zeroOrNegative
deriving DecidableEq, Repr

/-- The number `new(big.Int).SetBytes(d)`: big-endian. -/
def SetBytes (d : List Byte) : Nat := d.foldl (fun acc b => acc * 256 + b.val) 0

/-- Library model of go-ethereum `crypto.HexToECDSA` (with `crypto.ToECDSA`): the string is
hex-decoded, must give exactly 32 bytes, and the scalar `D` must satisfy `0 < D < N`; the
public key is then `ScalarBaseMult(D)` (the last check of the library, for a missing curve
point, cannot fire for such a scalar and is left out). -/
def HexToECDSA (lib : Geth) (hexkey : GoString) : Except KeyError PrivateKey :=
  match hexDecodeString hexkey with
  | .error (.InvalidByte b) => .error (.invalidHexCharacter b)
  | .error .ErrLength => .error .invalidHexData
  | .ok b =>
    if 8 * b.length ≠ 256 then .error .invalidLength
    else if SetBytes b ≥ secp256k1N then .error .notBelowN
    else if SetBytes b = 0 then .error .zeroOrNegative
    else .ok { PublicKey := lib.ScalarBaseMult (SetBytes b), D := SetBytes b }

/-! ## Configuration and results -/

/-- The struct `Config`. -/
structure Config where
  PrivateKeys : List GoString
  RpcUrl : GoString
  ChainID : Int
  ToAddress : GoString
  Value : GoString
  GasLimit : Nat
  GasPrice : GoString
  Data : GoString
deriving DecidableEq

/-- The error values that `sendTransaction` builds with `fmt.Errorf`, one constructor per
call site, with the wrapped error where the format has `%v`. -/
inductive SendError where
  /-- Line 151, `解析私钥失败: %v`. -/
  | parsePrivateKey (err : KeyError)
  /-- Line 158, `获取公钥失败`. -/
  | publicKey
  /-- Line 168, `获取nonce失败: %v`. -/
  | nonce (err : GoError)
  /-- Line 179, `解析转账金额失败`. -/
  | parseValue
  /-- Line 191, `解析gas价格失败`. -/
  | parseGasPrice
  /-- Line 200, `获取建议gas价格失败: %v`. -/
  | suggestGasPrice (err : GoError)
  /-- Line 219, `解析十六进制数据失败: %v`. -/
  | parseData (err : HexError)
  /-- Line 235, `签名交易失败: %v`. -/
  | signTx (err : GoError)
  /-- Line 244, `发送交易失败: %v`. -/
  | sendTx (err : GoError)
deriving DecidableEq

/-- The error kinds of the specification (section 7). -/
inductive ErrorKind where
  | InvalidKey
  | NonceQueryFailed
  | GasPriceQueryFailed
  | InvalidAmount
  | InvalidGasPrice
  | InvalidData
  | SigningFailed
  | SubmitFailed
deriving DecidableEq, Repr

/-- The kind of each error of `sendTransaction`; both failures of the account resolution
(lines 151 and 158) are of kind `InvalidKey`. -/
def SendError.kind : SendError → ErrorKind
  | .parsePrivateKey _ => .InvalidKey
  | .publicKey => .InvalidKey
  | .nonce _ => .NonceQueryFailed
  | .parseValue => .InvalidAmount
  | .parseGasPrice => .InvalidGasPrice
  | .suggestGasPrice _ => .GasPriceQueryFailed
  | .parseData _ => .InvalidData
  | .signTx _ => .SigningFailed
  | .sendTx _ => .SubmitFailed

/-- The struct `TransactionResult`; a field left out of a Go composite literal has its zero
value: the empty string, the `nil` error. -/
structure TransactionResult where
  Address : GoString := []
  TxHash : GoString := []
  Error : Option SendError := none
deriving DecidableEq

/-- What the program prints, one constructor per `Printf`, `Println` or `log.Printf`. -/
inductive Output where
  /-- Line 68, the chain identifier warning (configured, actual). -/
  | chainIDMismatch (configured actual : Int)
  /-- Line 71. -/
  | connected (chainID : Int)
  /-- Line 72. -/
  | preparing (count : Nat)
  /-- Line 98. -/
  | resultsHeader
  /-- Line 101. -/
  | failed (address : GoString) (err : SendError)
  /-- Line 104. -/
  | succeeded (address txHash : GoString)
  /-- Line 109. -/
  | summaryHeader
  /-- Line 110. -/
  | successCount (n : Nat)
  /-- Line 111. -/
  | failCount (n : Nat)
  /-- Line 112. -/
  | total (n : Nat)
  /-- Line 248, printed by the goroutine (number, address, hash). -/
  | sent (goroutine : Nat) (address txHash : GoString)
deriving DecidableEq

/-! ## Programs over the ledger client -/

/-- A computation that calls into go-ethereum: each node is one call of `sendTransaction`
on the shared `*ethclient.Client` (`PendingNonceAt`, `SuggestGasPrice`, `SendTransaction`),
its call to `types.SignTx`, or a line it prints; the continuation takes what the call
returns. -/
inductive Prog (α : Type) : Type where
  | ret (a : α)
  | PendingNonceAt (account : Address) (k : Except GoError Nat → Prog α)
  | SuggestGasPrice (k : Except GoError Int → Prog α)
  | SignTx (tx : Transaction) (s : EIP155Signer) (prv : PrivateKey)
      (k : Except GoError Transaction → Prog α)
  | SendTransaction (tx : Transaction) (k : Option GoError → Prog α)
  | Printf (line : Output) (k : Prog α)

/-- The prefix removal written out at lines 144-146 (private key) and 212-214 (data):
`if len(s) > 2 && s[:2] == "0x" { s = s[2:] }`. -/
def trim0x (s : GoString) : GoString :=
  if s.length > 2 ∧ s.take 2 = ascii "0x" then s.drop 2 else s

/-- Lines 173-182, the transfer amount: `new(big.Int)` is zero, a non-empty `config.Value`
is read in base 10; `none` is the early return of line 177. -/
def parseValue (config : Config) : Option Int :=
  if config.Value ≠ [] then SetString10 config.Value else some 0

/-- Lines 209-222, the call data: `nil` for an empty `config.Data`, else the prefix is
removed and the rest hex-decoded; an error is the early return of line 217. -/
def parseData (config : Config) : Except HexError (List Byte) :=
  if config.Data ≠ [] then hexDecodeString (trim0x config.Data) else .ok []

/-- Lines 205-253 of `sendTransaction`: the code that follows the gas-price `if`, entered
from both of its branches with the `gasPrice` they assign; the other arguments are the
local variables of `sendTransaction` that these lines read. -/
def withGasPrice (lib : Geth) (config : Config) (index : Nat) (privateKey : PrivateKey)
    (fromAddress : Address) (nonce : Nat) (value : Int) (gasPrice : Int) :
    Prog TransactionResult :=
  -- 解析目标地址
  let toAddress := lib.HexToAddress config.ToAddress
  -- 解析十六进制数据
  match parseData config with
  | .error err => .ret { Address := lib.AddressHex fromAddress, Error := some (.parseData err) }
  | .ok data =>
  -- 创建交易
  let tx := NewTransaction nonce toAddress value config.GasLimit gasPrice data
  -- 获取链ID
  let chainID := config.ChainID
  -- 签名交易
  .SignTx tx { chainId := chainID } privateKey fun
  | .error err => .ret { Address := lib.AddressHex fromAddress, Error := some (.signTx err) }
  | .ok signedTx =>
  -- 发送交易
  .SendTransaction signedTx fun
  | some err => .ret { Address := lib.AddressHex fromAddress, Error := some (.sendTx err) }
  | none =>
  .Printf (.sent (index + 1) (lib.AddressHex fromAddress) (lib.TxHash signedTx).Hex) <|
  .ret { Address := lib.AddressHex fromAddress, TxHash := (lib.TxHash signedTx).Hex }

/-- The function `sendTransaction` (lines 142-254).  A call on `client` is a node of the
tree; lines 205-253 are `withGasPrice`. -/
def sendTransaction (lib : Geth) (config : Config) (privateKeyHex : GoString) (index : Nat) :
    Prog TransactionResult :=
  -- 移除0x前缀
  let privateKeyHex := trim0x privateKeyHex
  -- 解析私钥
  match HexToECDSA lib privateKeyHex with
  | .error err => .ret { Error := some (.parsePrivateKey err) }
  | .ok privateKey =>
  -- 获取公钥和地址
  match privateKey.Public with
  | .other => .ret { Error := some .publicKey }
  | .ecdsa publicKeyECDSA =>
  let fromAddress := lib.PubkeyToAddress publicKeyECDSA
  -- 获取nonce
  .PendingNonceAt fromAddress fun
  | .error err => .ret { Address := lib.AddressHex fromAddress, Error := some (.nonce err) }
  | .ok nonce =>
  -- 解析转账金额
  match parseValue config with
  | none => .ret { Address := lib.AddressHex fromAddress, Error := some .parseValue }
  | some value =>
  -- 解析gas价格
  if config.GasPrice ≠ [] then
    match SetString10 config.GasPrice with
    | none => .ret { Address := lib.AddressHex fromAddress, Error := some .parseGasPrice }
    | some gasPrice => withGasPrice lib config index privateKey fromAddress nonce value gasPrice
  else
    -- 如果没有指定gas价格，则获取建议的gas价格
    .SuggestGasPrice fun
    | .error err =>
      .ret { Address := lib.AddressHex fromAddress, Error := some (.suggestGasPrice err) }
    | .ok gasPrice => withGasPrice lib config index privateKey fromAddress nonce value gasPrice

/-- The remote ledger behind `*ethclient.Client`, as a state machine over an arbitrary
state `σ`: each RPC returns its answer (a Go error for a failed call) and the next state. -/
structure Ledger (σ : Type) where
  NetworkID : σ → Except GoError Int × σ
  PendingNonceAt : Address → σ → Except GoError Nat × σ
  SuggestGasPrice : σ → Except GoError Int × σ
  SendTransaction : Transaction → σ → Option GoError × σ

deriving instance DecidableEq for Except

/-- One executed node of a `Prog`, with what the call returned. -/
inductive Event where
  | PendingNonceAt (account : Address) (r : Except GoError Nat)
  | SuggestGasPrice (r : Except GoError Int)
  | SignTx (tx : Transaction) (s : EIP155Signer) (r : Except GoError Transaction)
  | SendTransaction (tx : Transaction) (r : Option GoError)
  | Printf (line : Output)
deriving DecidableEq

/-- Whether the event is a call of `SuggestGasPrice`. -/
def Event.isSuggestGasPrice : Event → Bool
  | .SuggestGasPrice _ => true
  | _ => false

/-- Whether the event is a call of `SendTransaction` (the submission). -/
def Event.isSendTransaction : Event → Bool
  | .SendTransaction _ _ => true
  | _ => false

/-- The outcome of running a program to its end: the value returned, the ledger state
left behind, and the calls made, in order. -/
structure Run (σ α : Type) where
  value : α
  ledger : σ
  trace : List Event
deriving DecidableEq

/-- Runs a program alone against a ledger, from the state `s`. -/
def Prog.exec {σ α : Type} (lib : Geth) (L : Ledger σ) : Prog α → σ → Run σ α
  | .ret a, s => { value := a, ledger := s, trace := [] }
  | .PendingNonceAt account k, s =>
    let r := L.PendingNonceAt account s
    let run := (k r.1).exec lib L r.2
    { run with trace := .PendingNonceAt account r.1 :: run.trace }
  | .SuggestGasPrice k, s =>
    let r := L.SuggestGasPrice s
    let run := (k r.1).exec lib L r.2
    { run with trace := .SuggestGasPrice r.1 :: run.trace }
  | .SignTx tx signer prv k, s =>
    let r := lib.SignTx tx signer prv
    let run := (k r).exec lib L s
    { run with trace := .SignTx tx signer r :: run.trace }
  | .SendTransaction tx k, s =>
    let r := L.SendTransaction tx s
    let run := (k r.1).exec lib L r.2
    { run with trace := .SendTransaction tx r.1 :: run.trace }
  | .Printf line k, s =>
    let run := k.exec lib L s
    { run with trace := .Printf line :: run.trace }

/-! ## The goroutines of `main` -/

/-- The goroutines launched by `main` (lines 78-88) at one moment of the run.

* `workers[i]` is what goroutine `i` still has to run (`none` once it has sent its result
  on the channel and returned);
* `results` is the buffer of the channel `results` (capacity: the number of keys, so a
  send never blocks), each result tagged with the index of the goroutine that sent it
  (the tag is ghost state: `main` never reads it);
* `trace` lists the calls made so far, each with the index of the calling goroutine. -/
structure Pool (σ : Type) where
  ledger : σ
  workers : List (Option (Prog TransactionResult))
  results : List (Nat × TransactionResult)
  trace : List (Nat × Event)

/-- The pool after the loop of lines 78-88: one goroutine per key, with its index. -/
def Pool.launch {σ : Type} (lib : Geth) (config : Config) (s : σ) : Pool σ :=
  { ledger := s
    workers := config.PrivateKeys.enum.map (fun ik => some (sendTransaction lib config ik.2 ik.1))
    results := []
    trace := [] }

/-- One step of goroutine `i`: its next call (answered by the ledger in its current state),
or, when `sendTransaction` has returned, the send `results <- result`. -/
def Pool.step {σ : Type} (lib : Geth) (L : Ledger σ) (i : Nat) (P : Pool σ) : Pool σ :=
  match P.workers[i]? with
  | none => P
  | some none => P
  | some (some (.ret result)) =>
    { P with workers := P.workers.set i none, results := P.results ++ [(i, result)] }
  | some (some (.PendingNonceAt account k)) =>
    let r := L.PendingNonceAt account P.ledger
    { P with ledger := r.2, workers := P.workers.set i (some (k r.1)),
             trace := P.trace ++ [(i, .PendingNonceAt account r.1)] }
  | some (some (.SuggestGasPrice k)) =>
    let r := L.SuggestGasPrice P.ledger
    { P with ledger := r.2, workers := P.workers.set i (some (k r.1)),
             trace := P.trace ++ [(i, .SuggestGasPrice r.1)] }
  | some (some (.SignTx tx signer prv k)) =>
    let r := lib.SignTx tx signer prv
    { P with workers := P.workers.set i (some (k r)),
             trace := P.trace ++ [(i, .SignTx tx signer r)] }
  | some (some (.SendTransaction tx k)) =>
    let r := L.SendTransaction tx P.ledger
    { P with ledger := r.2, workers := P.workers.set i (some (k r.1)),
             trace := P.trace ++ [(i, .SendTransaction tx r.1)] }
  | some (some (.Printf line k)) =>
    { P with workers := P.workers.set i (some k), trace := P.trace ++ [(i, .Printf line)] }

/-- An interleaving: the goroutines step in the order the schedule names them. -/
def Pool.run {σ : Type} (lib : Geth) (L : Ledger σ) (sched : List Nat) (P : Pool σ) : Pool σ :=
  sched.foldl (fun P i => P.step lib L i) P

/-- Goroutine `i` runs undisturbed to its end and sends its result. -/
def Pool.finish {σ : Type} (lib : Geth) (L : Ledger σ) (i : Nat) (P : Pool σ) : Pool σ :=
  match P.workers[i]? with
  | some (some p) =>
    let run := p.exec lib L P.ledger
    { ledger := run.ledger, workers := P.workers.set i none,
      results := P.results ++ [(i, run.value)],
      trace := P.trace ++ run.trace.map (fun e => (i, e)) }
  | _ => P

/-- The barrier `wg.Wait()` (line 92): every goroutine that has not yet returned runs to its
end.  After an arbitrary schedule this completes the interleaving; a schedule that already
lets every goroutine return leaves nothing to do here. -/
def Pool.wait {σ : Type} (lib : Geth) (L : Ledger σ) (P : Pool σ) : Pool σ :=
  (List.range P.workers.length).foldl (fun P i => P.finish lib L i) P

/-- Lines 75-94: the goroutines are launched, run under the interleaving `sched` and are
waited for.  Every goroutine counts as launched from the start, which only adds
interleavings to those the staggered launch (line 87) allows. -/
def dispatch {σ : Type} (lib : Geth) (L : Ledger σ) (config : Config) (s : σ)
    (sched : List Nat) : Pool σ :=
  ((Pool.launch lib config s).run lib L sched).wait lib L

/-! ## `main` -/

/-- What `main` and `loadConfig` take from outside the program: the file system, the JSON
decoder, the connection to the node and the go-ethereum library. -/
structure World (σ : Type) where
  lib : Geth
  /-- The call `ioutil.ReadFile`. -/
  ReadFile : GoString → Except GoError (List Byte)
  /-- The call `json.Unmarshal(data, &config)` on a zero `Config`. -/
  Unmarshal : List Byte → Except GoError Config
  /-- The call `ethclient.Dial`: the state of the ledger behind the new client. -/
  Dial : GoString → Except GoError σ
  ledger : Ledger σ

/-- The errors of `loadConfig`. -/
inductive LoadError where
  /-- Line 119. -/
  | readFile (err : GoError)
  /-- Line 124. -/
  | unmarshal (err : GoError)
  /-- Line 129. -/
  | noPrivateKeys
  /-- Line 132. -/
  | noRpcUrl
  /-- Line 135. -/
  | noToAddress
deriving DecidableEq

/-- The function `loadConfig` (lines 116-139). -/
def loadConfig {σ : Type} (W : World σ) (filename : GoString) : Except LoadError Config :=
  match W.ReadFile filename with
  | .error err => .error (.readFile err)
  | .ok data =>
  match W.Unmarshal data with
  | .error err => .error (.unmarshal err)
  | .ok config =>
  -- 验证必要字段
  if config.PrivateKeys.length = 0 then .error .noPrivateKeys
  else if config.RpcUrl = [] then .error .noRpcUrl
  else if config.ToAddress = [] then .error .noToAddress
  else .ok config

/-- The three `log.Fatalf` exits of `main`. -/
inductive Fatal where
  /-- Line 50. -/
  | loadConfig (err : LoadError)
  /-- Line 57. -/
  | dial (err : GoError)
  /-- Line 64. -/
  | networkID (err : GoError)
deriving DecidableEq

/-- The state of the collection loop (lines 97-107): the two counters and the lines
printed so far. -/
structure Tally where
  successCount : Nat
  failCount : Nat
  lines : List Output

/-- The loop `for result := range results` (lines 99-107). -/
def collect (results : List TransactionResult) : Tally :=
  results.foldl
    (fun t result =>
      match result.Error with
      | some err =>
        { t with lines := t.lines ++ [.failed result.Address err], failCount := t.failCount + 1 }
      | none =>
        { t with lines := t.lines ++ [.succeeded result.Address result.TxHash],
                 successCount := t.successCount + 1 })
    { successCount := 0, failCount := 0, lines := [] }

/-- What a run of `main` that reaches line 113 leaves behind. -/
structure Report (σ : Type) where
  /-- The lines written by the main goroutine, in order. -/
  output : List Output
  /-- The results received from the channel, in order, with the index of their sender. -/
  results : List (Nat × TransactionResult)
  successCount : Nat
  failCount : Nat
  /-- The calls made by the goroutines, in order, with the index of the caller. -/
  trace : List (Nat × Event)
  ledger : σ

/-- The function `main` (lines 46-113).  The goroutines run under the interleaving `sched`
(`dispatch`); `log.Fatalf` ends the run with `Except.error`. -/
def main {σ : Type} (W : World σ) (sched : List Nat) : Except Fatal (Report σ) :=
  -- 读取配置文件
  match loadConfig W (ascii "config.json") with
  | .error err => .error (.loadConfig err)
  | .ok config =>
  -- 连接到BSC节点
  match W.Dial config.RpcUrl with
  | .error err => .error (.dial err)
  | .ok client =>
  -- 验证链ID
  match W.ledger.NetworkID client with
  | (.error err, _) => .error (.networkID err)
  | (.ok chainID, client) =>
  let warning : List Output :=
    if Int64 chainID ≠ config.ChainID then [.chainIDMismatch config.ChainID (Int64 chainID)]
    else []
  -- 创建协程同时发送交易
  let pool := dispatch W.lib W.ledger config client sched
  -- 收集结果
  let tally := collect (pool.results.map Prod.snd)
  .ok
    { output :=
        warning ++ [.connected (Int64 chainID), .preparing config.PrivateKeys.length,
          .resultsHeader] ++ tally.lines ++
        [.summaryHeader, .successCount tally.successCount, .failCount tally.failCount,
          .total (tally.successCount + tally.failCount)]
      results := pool.results
      successCount := tally.successCount
      failCount := tally.failCount
      trace := pool.trace
      ledger := pool.ledger }

/-! ## Concrete collaborators for the examples -/

/-- A stand-in for go-ethereum: the public key of `d` is `(d, d)`, the address of an
account ends in the low byte of its key, signing records the chain identifier in `V`. -/
def toyGeth : Geth where
  ScalarBaseMult := fun d => { X := d, Y := d }
  PubkeyToAddress := fun k => { bytes := List.replicate 19 0 ++ [Fin.ofNat k.X], size := by simp }
  checksumHex := fun a => hexEncodeToString a.bytes
  HexToAddress := fun _ => { bytes := List.replicate 20 0, size := by decide }
  SignTx := fun tx signer _ => .ok { tx with V := signer.chainId }
  TxHash := fun _ => { bytes := List.replicate 32 0, size := by decide }

/-- A ledger without state that accepts every call: nonce 7, gas price 5. -/
def okLedger : Ledger Unit where
  NetworkID := fun s => (.ok 56, s)
  PendingNonceAt := fun _ s => (.ok 7, s)
  SuggestGasPrice := fun s => (.ok 5, s)
  SendTransaction := fun _ s => (none, s)

/-- A ledger without state whose every call fails. -/
def downLedger : Ledger Unit where
  NetworkID := fun s => (.error "down", s)
  PendingNonceAt := fun _ s => (.error "down", s)
  SuggestGasPrice := fun s => (.error "down", s)
  SendTransaction := fun _ s => (some "down", s)

/-- A ledger without state that accepts every query and refuses the submission of a
transaction with a negative amount or gas price, as the encoding of the transaction
inside `ethclient` does. -/
def strictLedger : Ledger Unit where
  NetworkID := fun s => (.ok 56, s)
  PendingNonceAt := fun _ s => (.ok 7, s)
  SuggestGasPrice := fun s => (.ok 5, s)
  SendTransaction := fun tx s =>
    (if tx.amount < 0 ∨ tx.gasPrice < 0 then some "rlp: cannot encode negative big.Int" else none, s)

/-- A world in which the configuration file decodes to `config` and the node is `L`. -/
def worldOf (L : Ledger Unit) (config : Config) : World Unit where
  lib := toyGeth
  ReadFile := fun _ => .ok []
  Unmarshal := fun _ => .ok config
  Dial := fun _ => .ok ()
  ledger := L

/-- Whether a line is the chain identifier warning of line 68. -/
def Output.isChainIDMismatch : Output → Bool
  | .chainIDMismatch _ _ => true
  | _ => false

/-- A private key: the scalar 1. -/
def keyOne : GoString :=
  ascii "0x0000000000000000000000000000000000000000000000000000000000000001"

/-- The configuration of scenario A: value 0, gas limit 21000, no data, no gas price. -/
def configA : Config where
  PrivateKeys := [keyOne]
  RpcUrl := ascii "http://localhost:8545"
  ChainID := 56
  ToAddress := ascii "0x000000000000000000000000000000000000dEaD"
  Value := ascii "0"
  GasLimit := 21000
  GasPrice := []
  Data := []

/-! ## The vocabulary of the specification -/

/-- Whether a byte is a hexadecimal digit. -/
def isHexDigit (c : Byte) : Bool := (fromHexChar c).isSome

/-- The number written by a string of hexadecimal digits, most significant first. -/
def hexValue (s : GoString) : Nat := s.foldl (fun acc c => acc * 16 + (fromHexChar c).getD 0) 0

/-- A well-formed secp256k1 private key in hexadecimal: 64 hexadecimal digits that write
a scalar `d` with `0 < d < N`. -/
def isSecp256k1Key (s : GoString) : Bool :=
  decide (s.length = 64) && s.all isHexDigit && decide (0 < hexValue s) &&
    decide (hexValue s < secp256k1N)

/-- The removal of an optional `0x` in front of a string, as the specification words it. -/
def stripOptional0x (s : GoString) : GoString :=
  if s.take 2 = ascii "0x" then s.drop 2 else s

/-- The private key that a well-formed hexadecimal string denotes. -/
def keyOf (lib : Geth) (s : GoString) : PrivateKey :=
  { PublicKey := lib.ScalarBaseMult (hexValue s), D := hexValue s }

/-- The address of the account of a private key (line 161). -/
def addressOf (lib : Geth) (privateKey : PrivateKey) : Address :=
  lib.PubkeyToAddress privateKey.PublicKey

/-- A valid base-10 non-negative integer: one decimal digit or more, nothing else. -/
def isDecimal (s : GoString) : Bool := !s.isEmpty && s.all isDecimalDigit

/-- A base-10 integer with an optional sign `+` or `-` in front. -/
def isSignedDecimal (s : GoString) : Bool :=
  match s with
  | [] => false
  | ch :: rest => if ch.val = 45 ∨ ch.val = 43 then isDecimal rest else isDecimal (ch :: rest)

/-- A hexadecimal letter `A` .. `F` in lower case; every other byte unchanged. -/
def lowerHexLetter (c : Byte) : Byte := if 65 ≤ c.val ∧ c.val ≤ 70 then c + 32 else c

/-- The normalized form of a hexadecimal string: no `0x` in front, letters in lower case. -/
def normalizeHex (s : GoString) : GoString := (stripOptional0x s).map lowerHexLetter

/-- The Failure outcome that carries the address of an account. -/
def failureOf (lib : Geth) (a : Address) (err : SendError) : TransactionResult :=
  { Address := lib.AddressHex a, TxHash := [], Error := some err }

/-- The error that `sendTransaction` is to report for a call that failed. -/
def Event.failure : Event → Option SendError
  | .PendingNonceAt _ (.error err) => some (.nonce err)
  | .SuggestGasPrice (.error err) => some (.suggestGasPrice err)
  | .SignTx _ _ (.error err) => some (.signTx err)
  | .SendTransaction _ (some err) => some (.sendTx err)
  | _ => none

/-- What the ledger client returns to a call. -/
inductive Response where
  | nonce (r : Except GoError Nat)
  | gasPrice (r : Except GoError Int)
  | sent (r : Option GoError)
deriving DecidableEq

/-- The response of the ledger client in an event, if the event is a call on it. -/
def Event.response : Event → Option Response
  | .PendingNonceAt _ r => some (.nonce r)
  | .SuggestGasPrice r => some (.gasPrice r)
  | .SendTransaction _ r => some (.sent r)
  | _ => none

/-- The calls of goroutine `i` in the trace of a pool, in order. -/
def eventsOf (i : Nat) (trace : List (Nat × Event)) : List Event :=
  (trace.filter (fun e => e.1 = i)).map Prod.snd

/-- The responses of the ledger client to the calls of goroutine `i`, in order. -/
def responsesTo (i : Nat) (trace : List (Nat × Event)) : List Response :=
  (eventsOf i trace).filterMap Event.response

/-- A ledger that answers from a script: its state is the list of the responses still to
give, each call takes the next one (and fails when the script has another kind of
response next, or none). -/
def scriptLedger : Ledger (List Response) where
  NetworkID := fun s => (.error "not scripted", s)
  PendingNonceAt := fun _ s =>
    match s with
    | .nonce r :: rest => (r, rest)
    | _ => (.error "not scripted", s)
  SuggestGasPrice := fun s =>
    match s with
    | .gasPrice r :: rest => (r, rest)
    | _ => (.error "not scripted", s)
  SendTransaction := fun _ s =>
    match s with
    | .sent r :: rest => (r, rest)
    | _ => (some "not scripted", s)

/-- Goroutine `j`, launched with the program `p0`, as one run of `p0` alone against the
ledger that replays the responses it got: `w` is what the goroutine still has to run,
`evs` are its calls so far, `mine` the results it has sent. -/
def Projected (lib : Geth) (p0 : Prog TransactionResult) (w : Option (Prog TransactionResult))
    (evs : List Event) (mine : List (Nat × TransactionResult)) (j : Nat) : Prop :=
  match w with
  | some p =>
    mine = [] ∧
    ∀ rs, p0.exec lib scriptLedger (evs.filterMap Event.response ++ rs) =
      { value := (p.exec lib scriptLedger rs).value
        ledger := (p.exec lib scriptLedger rs).ledger
        trace := evs ++ (p.exec lib scriptLedger rs).trace }
  | none =>
    ∃ r, mine = [(j, r)] ∧
      p0.exec lib scriptLedger (evs.filterMap Event.response) =
        { value := r, ledger := [], trace := evs }

/-- The invariant of the pool launched with the programs `progs`. -/
def Pool.Inv {σ : Type} (lib : Geth) (progs : List (Prog TransactionResult)) (P : Pool σ) :
    Prop :=
  P.workers.length = progs.length ∧
  (∀ x ∈ P.results, x.1 < progs.length) ∧
  (∀ x ∈ P.trace, x.1 < progs.length) ∧
  ∀ j p0, progs[j]? = some p0 →
    ∃ w, P.workers[j]? = some w ∧
      Projected lib p0 w (eventsOf j P.trace) (P.results.filter (fun x => x.1 = j)) j

/-- How lines 184-203 arrive at the gas price `g`: from the configured string, without a
call, or from `SuggestGasPrice`, which takes the ledger from `s1` to `s2`; `evs` lists the
calls made. -/
def GasPriceFrom {σ : Type} (L : Ledger σ) (config : Config) (s1 : σ) (g : Int) (s2 : σ)
    (evs : List Event) : Prop :=
  (config.GasPrice ≠ [] ∧ SetString10 config.GasPrice = some g ∧ s2 = s1 ∧ evs = []) ∨
  (config.GasPrice = [] ∧ L.SuggestGasPrice s1 = (.ok g, s2) ∧ evs = [.SuggestGasPrice (.ok g)])

/-! ## Library lemmas: hexadecimal strings and private keys -/

theorem fromHexChar_lt {c : Byte} {a : Nat} (h : fromHexChar c = some a) : a < 16 := by
  unfold fromHexChar at h
  split_ifs at h <;> simp at h <;> omega

theorem ofNat_nibbles_val {a b : Nat} (ha : a < 16) (hb : b < 16) :
    (Fin.ofNat (a * 16 + b) : Byte).val = a * 16 + b := by
  simp [Fin.ofNat]; omega

theorem hexDecodeString_ok {s : GoString} {bs : List Byte} (h : hexDecodeString s = .ok bs) :
    s.length = 2 * bs.length ∧ (∀ c ∈ s, isHexDigit c = true) ∧
      ∀ acc, s.foldl (fun acc c => acc * 16 + (fromHexChar c).getD 0) acc
        = bs.foldl (fun acc b => acc * 256 + b.val) acc := by
  induction s using hexDecodeString.induct generalizing bs with
  | case1 => simp [hexDecodeString] at h; subst h; simp
  | case2 p hp => simp [hexDecodeString, hp] at h
  | case3 p a hp => simp [hexDecodeString, hp] at h
  | case4 p q rest hp => simp [hexDecodeString, hp] at h
  | case5 p q rest a hp hq => simp [hexDecodeString, hp, hq] at h
  | case6 p q rest a hp b hq e he ih => simp [hexDecodeString, hp, hq, he] at h
  | case7 p q rest a hp b hq bs0 hrest ih =>
    simp [hexDecodeString, hp, hq, hrest] at h
    subst h
    obtain ⟨h1, h2, h3⟩ := ih hrest
    refine ⟨by simp [h1]; omega, ?_, ?_⟩
    · intro c hc
      simp at hc
      rcases hc with rfl | rfl | hc
      · simp [isHexDigit, hp]
      · simp [isHexDigit, hq]
      · exact h2 c hc
    · intro acc
      simp only [List.foldl_cons, hp, hq, Option.getD_some]
      rw [h3, ofNat_nibbles_val (fromHexChar_lt hp) (fromHexChar_lt hq)]
      congr 1; ring

theorem hexDecodeString_of_digits (s : GoString) (heven : s.length % 2 = 0)
    (hdig : ∀ c ∈ s, isHexDigit c = true) : ∃ bs, hexDecodeString s = .ok bs := by
  induction s using hexDecodeString.induct with
  | case1 => exact ⟨[], by simp [hexDecodeString]⟩
  | case2 p hp => simp at heven
  | case3 p a hp => simp at heven
  | case4 p q rest hp =>
    have := hdig p (by simp)
    simp [isHexDigit, hp] at this
  | case5 p q rest a hp hq =>
    have := hdig q (by simp)
    simp [isHexDigit, hq] at this
  | case6 p q rest a hp b hq e he ih =>
    obtain ⟨bs, hbs⟩ := ih (by simp at heven; omega) (fun c hc => hdig c (by simp [hc]))
    simp [he] at hbs
  | case7 p q rest a hp b hq bs0 hrest ih =>
    exact ⟨Fin.ofNat (a * 16 + b) :: bs0, by simp [hexDecodeString, hp, hq, hrest]⟩

theorem HexToECDSA_ok_iff (lib : Geth) (s : GoString) (k : PrivateKey) :
    HexToECDSA lib s = .ok k ↔ isSecp256k1Key s = true ∧ k = keyOf lib s := by
  constructor
  · intro h
    unfold HexToECDSA at h
    split at h
    · simp at h
    · simp at h
    · rename_i b hb
      obtain ⟨h1, h2, h3⟩ := hexDecodeString_ok hb
      have hv : hexValue s = SetBytes b := h3 0
      split_ifs at h with c1 c2 c3
      simp at h
      subst h
      refine ⟨?_, by simp [keyOf, hv]⟩
      simp only [isSecp256k1Key, Bool.and_eq_true, decide_eq_true_eq, List.all_eq_true]
      refine ⟨⟨⟨by omega, h2⟩, by omega⟩, by omega⟩
  · rintro ⟨h, rfl⟩
    simp only [isSecp256k1Key, Bool.and_eq_true, decide_eq_true_eq, List.all_eq_true] at h
    obtain ⟨⟨⟨h1, h2⟩, h3⟩, h4⟩ := h
    obtain ⟨bs, hbs⟩ := hexDecodeString_of_digits s (by omega) h2
    obtain ⟨g1, _, g3⟩ := hexDecodeString_ok hbs
    have hv : hexValue s = SetBytes bs := g3 0
    unfold HexToECDSA
    rw [hbs]
    have : 8 * bs.length = 256 := by omega
    rw [hv] at h3 h4
    have e1 : ¬ (SetBytes bs ≥ secp256k1N) := by omega
    have e2 : ¬ (SetBytes bs = 0) := by omega
    simp only [this, ne_eq, not_true_eq_false, if_false, e1, e2, keyOf, hv]

theorem take_two_ascii0x {s : GoString} (h : s.take 2 = ascii "0x") (hlen : ¬ s.length > 2) :
    s = ascii "0x" := by
  rw [← h]
  exact (List.take_of_length_le (by omega)).symm

theorem isSecp256k1Key_trim0x (key : GoString) :
    isSecp256k1Key (trim0x key) = isSecp256k1Key (stripOptional0x key) := by
  unfold trim0x stripOptional0x
  by_cases h : key.take 2 = ascii "0x"
  · by_cases hlen : key.length > 2
    · simp [h, hlen]
    · have := take_two_ascii0x h hlen
      subst this
      decide
  · simp [h]

/-! ## The runs of `sendTransaction`, path by path -/

theorem exec_withGasPrice_cases {σ : Type} (lib : Geth) (L : Ledger σ) (s : σ)
    (config : Config) (index : Nat) (priv : PrivateKey) (a : Address) (n : Nat) (v g : Int) :
    let run := (withGasPrice lib config index priv a n v g).exec lib L s
    (∃ e, parseData config = .error e ∧
      run = { value := failureOf lib a (.parseData e), ledger := s, trace := [] }) ∨
    (∃ d, parseData config = .ok d ∧
      ((∃ e, lib.SignTx (NewTransaction n (lib.HexToAddress config.ToAddress) v config.GasLimit g d)
            { chainId := config.ChainID } priv = .error e ∧
          run = { value := failureOf lib a (.signTx e), ledger := s,
                  trace := [.SignTx (NewTransaction n (lib.HexToAddress config.ToAddress) v
                    config.GasLimit g d) { chainId := config.ChainID } (.error e)] }) ∨
       (∃ stx, lib.SignTx (NewTransaction n (lib.HexToAddress config.ToAddress) v config.GasLimit g d)
            { chainId := config.ChainID } priv = .ok stx ∧
          ((∃ e s3, L.SendTransaction stx s = (some e, s3) ∧
              run = { value := failureOf lib a (.sendTx e), ledger := s3,
                      trace := [.SignTx (NewTransaction n (lib.HexToAddress config.ToAddress) v
                        config.GasLimit g d) { chainId := config.ChainID } (.ok stx),
                        .SendTransaction stx (some e)] }) ∨
           (∃ s3, L.SendTransaction stx s = (none, s3) ∧
              run = { value := { Address := lib.AddressHex a, TxHash := (lib.TxHash stx).Hex,
                                 Error := none },
                      ledger := s3,
                      trace := [.SignTx (NewTransaction n (lib.HexToAddress config.ToAddress) v
                        config.GasLimit g d) { chainId := config.ChainID } (.ok stx),
                        .SendTransaction stx none,
                        .Printf (.sent (index + 1) (lib.AddressHex a) (lib.TxHash stx).Hex)] }))))) := by
  intro run
  cases hd : parseData config with
  | error e => left; exact ⟨e, rfl, by simp [run, withGasPrice, hd, Prog.exec, failureOf]⟩
  | ok d =>
    right
    refine ⟨d, rfl, ?_⟩
    cases hs : lib.SignTx (NewTransaction n (lib.HexToAddress config.ToAddress) v config.GasLimit g d)
        { chainId := config.ChainID } priv with
    | error e => left; exact ⟨e, rfl, by simp [run, withGasPrice, hd, Prog.exec, failureOf, hs]⟩
    | ok stx =>
      right
      refine ⟨stx, rfl, ?_⟩
      rcases ht : L.SendTransaction stx s with ⟨_ | e, s3⟩
      · right; exact ⟨s3, rfl, by simp [run, withGasPrice, hd, Prog.exec, hs, ht]⟩
      · left; exact ⟨e, s3, rfl, by simp [run, withGasPrice, hd, Prog.exec, failureOf, hs, ht]⟩

theorem exec_sendTransaction_cases {σ : Type} (lib : Geth) (L : Ledger σ) (s : σ)
    (config : Config) (key : GoString) (index : Nat) (priv : PrivateKey)
    (hk : HexToECDSA lib (trim0x key) = .ok priv) :
    let a := addressOf lib priv
    let run := (sendTransaction lib config key index).exec lib L s
    (∃ e s1, L.PendingNonceAt a s = (.error e, s1) ∧
      run = { value := failureOf lib a (.nonce e), ledger := s1,
              trace := [.PendingNonceAt a (.error e)] }) ∨
    (∃ n s1, L.PendingNonceAt a s = (.ok n, s1) ∧
      ((parseValue config = none ∧
          run = { value := failureOf lib a .parseValue, ledger := s1,
                  trace := [.PendingNonceAt a (.ok n)] }) ∨
       (∃ v, parseValue config = some v ∧
          ((config.GasPrice ≠ [] ∧ SetString10 config.GasPrice = none ∧
              run = { value := failureOf lib a .parseGasPrice, ledger := s1,
                      trace := [.PendingNonceAt a (.ok n)] }) ∨
           (config.GasPrice = [] ∧ ∃ e s2, L.SuggestGasPrice s1 = (.error e, s2) ∧
              run = { value := failureOf lib a (.suggestGasPrice e), ledger := s2,
                      trace := [.PendingNonceAt a (.ok n), .SuggestGasPrice (.error e)] }) ∨
           (∃ g s2 evs, GasPriceFrom L config s1 g s2 evs ∧
              run = { value := ((withGasPrice lib config index priv a n v g).exec lib L s2).value,
                      ledger := ((withGasPrice lib config index priv a n v g).exec lib L s2).ledger,
                      trace := .PendingNonceAt a (.ok n) :: evs ++
                        ((withGasPrice lib config index priv a n v g).exec lib L s2).trace }))))) := by
  intro a run
  rcases h1 : L.PendingNonceAt a s with ⟨e | n, s1⟩
  · left
    refine ⟨e, s1, rfl, ?_⟩
    simp only [a, addressOf] at h1
    simp [run, sendTransaction, hk, PrivateKey.Public, Prog.exec, failureOf, h1, a, addressOf]
  · right
    refine ⟨n, s1, rfl, ?_⟩
    simp only [a, addressOf] at h1
    cases h2 : parseValue config with
    | none =>
      left
      refine ⟨rfl, ?_⟩
      simp [run, sendTransaction, hk, PrivateKey.Public, Prog.exec, failureOf, h1, h2, a, addressOf]
    | some v =>
      right
      refine ⟨v, rfl, ?_⟩
      by_cases h3 : config.GasPrice = []
      · rcases h4 : L.SuggestGasPrice s1 with ⟨e | g, s2⟩
        · right; left
          refine ⟨h3, e, s2, rfl, ?_⟩
          simp [run, sendTransaction, hk, PrivateKey.Public, Prog.exec, failureOf, h1, h2, h3, h4, a,
            addressOf]
        · right; right
          refine ⟨g, s2, _, Or.inr ⟨h3, h4, rfl⟩, ?_⟩
          simp [run, sendTransaction, hk, PrivateKey.Public, Prog.exec, h1, h2, h3, h4, a, addressOf]
      · cases h4 : SetString10 config.GasPrice with
        | none =>
          left
          refine ⟨h3, rfl, ?_⟩
          simp [run, sendTransaction, hk, PrivateKey.Public, Prog.exec, failureOf, h1, h2, h3, h4, a,
            addressOf]
        | some g =>
          right; right
          refine ⟨g, s1, _, Or.inl ⟨h3, h4, rfl, rfl⟩, ?_⟩
          simp [run, sendTransaction, hk, PrivateKey.Public, Prog.exec, h1, h2, h3, h4, a, addressOf]

/-! ## Library lemmas: decimal strings -/

theorem scanMantissa10_eq_none_iff (s : GoString) :
    scanMantissa10 s = none ↔ isDecimal s = false := by
  unfold scanMantissa10 isDecimal
  cases s with
  | nil => simp
  | cons c t =>
    by_cases h : (c :: t).all isDecimalDigit = true
    · simp [h]
    · simp [h]

theorem SetString10_eq_none_iff (s : GoString) :
    SetString10 s = none ↔ isSignedDecimal s = false := by
  unfold SetString10 isSignedDecimal
  cases s with
  | nil => simp
  | cons c t =>
    simp only
    by_cases h1 : c.val = 45
    · simp only [h1, if_true, true_or]
      rw [← scanMantissa10_eq_none_iff]
      cases scanMantissa10 t <;> simp
    · by_cases h2 : c.val = 43
      · simp only [h1, h2, if_true, if_false, or_true]
        rw [← scanMantissa10_eq_none_iff]
        cases scanMantissa10 t <;> simp
      · simp only [h1, h2, if_false, or_self]
        rw [← scanMantissa10_eq_none_iff]
        cases scanMantissa10 (c :: t) <;> simp

theorem parseValue_eq_none_iff (config : Config) :
    parseValue config = none ↔ config.Value ≠ [] ∧ isSignedDecimal config.Value = false := by
  unfold parseValue
  by_cases h : config.Value = []
  · simp [h]
  · simp [h, SetString10_eq_none_iff]

theorem exec_withGasPrice_sent {σ : Type} (lib : Geth) (L : Ledger σ) (s : σ)
    (config : Config) (index : Nat) (priv : PrivateKey) (a : Address) (n : Nat) (v g : Int)
    (ev : Event) (hev : ev ∈ ((withGasPrice lib config index priv a n v g).exec lib L s).trace) :
    (∀ tx signer r, ev = .SignTx tx signer r →
      ∃ d, parseData config = .ok d ∧
        tx = NewTransaction n (lib.HexToAddress config.ToAddress) v config.GasLimit g d ∧
        signer = { chainId := config.ChainID }) ∧
    ev.isSuggestGasPrice = false := by
  rcases exec_withGasPrice_cases lib L s config index priv a n v g with
    ⟨e, _, h⟩ | ⟨d, hd, ⟨e, _, h⟩ | ⟨stx, _, ⟨e, s3, _, h⟩ | ⟨s3, _, h⟩⟩⟩ <;>
  · rw [h] at hev
    simp at hev
    try rcases hev with rfl | rfl | rfl
    try rcases hev with rfl | rfl
    all_goals simp [Event.isSuggestGasPrice, hd]

theorem GasPriceFrom_unique {σ : Type} {L : Ledger σ} {config : Config} {s1 s2 s2' : σ}
    {g g' : Int} {evs evs' : List Event} (h : GasPriceFrom L config s1 g s2 evs)
    (h' : GasPriceFrom L config s1 g' s2' evs') : g' = g ∧ s2' = s2 ∧ evs' = evs := by
  rcases h with ⟨hne, hg, rfl, rfl⟩ | ⟨hempty, hs, rfl⟩
  · rcases h' with ⟨_, hg', rfl, rfl⟩ | ⟨hempty, _⟩
    · rw [hg] at hg'
      simp only [Option.some.injEq] at hg'
      exact ⟨hg'.symm, rfl, rfl⟩
    · exact absurd hempty hne
  · rcases h' with ⟨hne, _⟩ | ⟨_, hs', rfl⟩
    · exact absurd hempty hne
    · rw [hs] at hs'
      simp only [Prod.mk.injEq, Except.ok.injEq] at hs'
      obtain ⟨rfl, rfl⟩ := hs'
      exact ⟨rfl, rfl, rfl⟩

/-- With the data accepted, lines 224-231 hand to the signer the transaction of line 225,
for the configured chain identifier. -/
theorem exec_withGasPrice_signs {σ : Type} (lib : Geth) (L : Ledger σ) (s : σ)
    (config : Config) (index : Nat) (priv : PrivateKey) (a : Address) (n : Nat) (v g : Int)
    (d : List Byte) (hdata : parseData config = .ok d) :
    Event.SignTx (NewTransaction n (lib.HexToAddress config.ToAddress) v config.GasLimit g d)
        { chainId := config.ChainID }
        (lib.SignTx (NewTransaction n (lib.HexToAddress config.ToAddress) v config.GasLimit g d)
          { chainId := config.ChainID } priv) ∈
      ((withGasPrice lib config index priv a n v g).exec lib L s).trace := by
  simp [withGasPrice, hdata, Prog.exec]

/-- For a resolved account, once the nonce query returned `n`, the value resolved to `v`,
the gas price to `g` and the data to `d`, the run makes the calls of the gas-price stage
and hands to the signer the transaction `(n, to, v, gas limit, g, d)`. -/
theorem exec_sendTransaction_builds {σ : Type} (lib : Geth) (L : Ledger σ) (s : σ)
    (config : Config) (key : GoString) (index : Nat) (priv : PrivateKey)
    (n : Nat) (s1 : σ) (v g : Int) (s2 : σ) (evs : List Event) (d : List Byte)
    (hk : HexToECDSA lib (trim0x key) = .ok priv)
    (hnonce : L.PendingNonceAt (addressOf lib priv) s = (.ok n, s1))
    (hvalue : parseValue config = some v)
    (hgas : GasPriceFrom L config s1 g s2 evs)
    (hdata : parseData config = .ok d) :
    Event.SignTx (NewTransaction n (lib.HexToAddress config.ToAddress) v config.GasLimit g d)
        { chainId := config.ChainID }
        (lib.SignTx (NewTransaction n (lib.HexToAddress config.ToAddress) v config.GasLimit g d)
          { chainId := config.ChainID } priv) ∈
      ((sendTransaction lib config key index).exec lib L s).trace ∧
    ∀ ev ∈ evs, ev ∈ ((sendTransaction lib config key index).exec lib L s).trace := by
  have hcases := exec_sendTransaction_cases lib L s config key index priv hk
  simp only [hnonce] at hcases
  rcases hcases with ⟨e, s1', h1, _⟩ | ⟨n', s1', h1, hrest⟩
  · simp at h1
  · simp only [Prod.mk.injEq, Except.ok.injEq] at h1
    obtain ⟨rfl, rfl⟩ := h1
    rcases hrest with ⟨hv, _⟩ | ⟨v', hv, hrest⟩
    · simp [hvalue] at hv
    · rw [hvalue] at hv
      simp only [Option.some.injEq] at hv
      subst hv
      rcases hrest with ⟨hne, hg2, _⟩ | ⟨h0, e, s2', hs2, _⟩ | ⟨g', s2', evs', hgas', h⟩
      · rcases hgas with ⟨_, hg, _⟩ | ⟨hempty, _⟩
        · simp [hg] at hg2
        · exact absurd hempty hne
      · rcases hgas with ⟨hne, _⟩ | ⟨_, hs, _⟩
        · exact absurd h0 hne
        · simp [hs] at hs2
      · obtain ⟨e1, e2, e3⟩ := GasPriceFrom_unique hgas hgas'
        subst e1 e2 e3
        rw [h]
        refine ⟨?_, ?_⟩
        · simp only [List.cons_append, List.mem_cons, List.mem_append]
          exact Or.inr (Or.inr (exec_withGasPrice_signs lib L s2' config index priv _ n v g' d hdata))
        · intro ev hev
          simp only [List.cons_append, List.mem_cons, List.mem_append]
          exact Or.inr (Or.inl hev)

theorem AddressHex_ne_nil (lib : Geth) (a : Address) : lib.AddressHex a ≠ [] := by
  simp [Geth.AddressHex, ascii]

/-! ## C2: malformed private keys -/

/-- C2: a private-key string that, once an optional `0x` in front is removed, is not a
well-formed secp256k1 private key makes `sendTransaction` return a Failure of kind
`InvalidKey` whose address and transaction hash are empty, without any call on the ledger
client: the run makes no call at all and leaves the ledger in its state. -/
theorem sendTransaction_invalid_key {σ : Type} (lib : Geth) (L : Ledger σ) (s : σ)
    (config : Config) (privateKeyHex : GoString) (index : Nat)
    (hkey : isSecp256k1Key (stripOptional0x privateKeyHex) = false) :
    ∃ err : SendError, err.kind = .InvalidKey ∧
      (sendTransaction lib config privateKeyHex index).exec lib L s =
        { value := { Address := [], TxHash := [], Error := some err },
          ledger := s, trace := [] } := by
  rw [← isSecp256k1Key_trim0x] at hkey
  cases hk : HexToECDSA lib (trim0x privateKeyHex) with
  | ok k =>
    have := ((HexToECDSA_ok_iff lib _ k).mp hk).1
    simp [hkey] at this
  | error e =>
    refine ⟨.parsePrivateKey e, rfl, ?_⟩
    simp [sendTransaction, hk, Prog.exec]

/-- Witness of C2: the key `0x` alone, against a ledger that is down. -/
theorem sendTransaction_invalid_key_witness :
    isSecp256k1Key (stripOptional0x (ascii "0x")) = false ∧
    ∃ err : SendError, err.kind = .InvalidKey ∧
      (sendTransaction toyGeth configA (ascii "0x") 0).exec toyGeth downLedger () =
        { value := { Address := [], TxHash := [], Error := some err },
          ledger := (), trace := [] } :=
  ⟨by decide, sendTransaction_invalid_key toyGeth downLedger () configA (ascii "0x") 0 (by decide)⟩

/-! ## C3: malformed amounts and gas prices -/

/-- C3, as the code has it: for a resolved account, a value string (respectively gas-price
string) that is non-empty and not a base-10 integer with an optional sign in front makes
`sendTransaction` return a Failure without any call of `SendTransaction`; the Failure is
of kind `InvalidAmount` once the nonce query has succeeded (respectively of kind
`InvalidGasPrice` once the nonce query has succeeded and the value string was accepted),
and it carries the address of the account.  An empty value string is accepted as the value
zero: the value stage resolves to 0, every transaction handed to the signer has amount 0,
and once the nonce query returned `n`, the gas price resolved to `g` and the data to `d`,
the transaction `(n, to, 0, gas limit, g, d)` is handed to the signer. -/
theorem sendTransaction_invalid_number {σ : Type} (lib : Geth) (L : Ledger σ) (s : σ)
    (config : Config) (privateKeyHex : GoString) (index : Nat) (priv : PrivateKey)
    (hk : HexToECDSA lib (trim0x privateKeyHex) = .ok priv) :
    let run := (sendTransaction lib config privateKeyHex index).exec lib L s
    (config.Value ≠ [] → isSignedDecimal config.Value = false →
      (∀ ev ∈ run.trace, ev.isSendTransaction = false) ∧ run.value.Error ≠ none ∧
      (∀ n s1, L.PendingNonceAt (addressOf lib priv) s = (.ok n, s1) →
        run.value.Error.map SendError.kind = some .InvalidAmount ∧
        run.value.Address = lib.AddressHex (addressOf lib priv))) ∧
    (config.GasPrice ≠ [] → isSignedDecimal config.GasPrice = false →
      (∀ ev ∈ run.trace, ev.isSendTransaction = false) ∧ run.value.Error ≠ none ∧
      (∀ n s1 v, L.PendingNonceAt (addressOf lib priv) s = (.ok n, s1) →
        parseValue config = some v →
        run.value.Error.map SendError.kind = some .InvalidGasPrice ∧
        run.value.Address = lib.AddressHex (addressOf lib priv))) ∧
    (config.Value = [] →
      parseValue config = some 0 ∧
      (∀ tx signer r, Event.SignTx tx signer r ∈ run.trace → tx.amount = 0) ∧
      (∀ n s1 g s2 evs d, L.PendingNonceAt (addressOf lib priv) s = (.ok n, s1) →
        GasPriceFrom L config s1 g s2 evs → parseData config = .ok d →
        Event.SignTx
            (NewTransaction n (lib.HexToAddress config.ToAddress) 0 config.GasLimit g d)
            { chainId := config.ChainID }
            (lib.SignTx
              (NewTransaction n (lib.HexToAddress config.ToAddress) 0 config.GasLimit g d)
              { chainId := config.ChainID } priv) ∈ run.trace)) := by
  intro run
  have hcases := exec_sendTransaction_cases lib L s config privateKeyHex index priv hk
  simp only at hcases
  refine ⟨?_, ?_, ?_⟩
  · intro hne hbad
    have hv : parseValue config = none := (parseValue_eq_none_iff config).mpr ⟨hne, hbad⟩
    rcases hcases with ⟨e, s1, h1, h⟩ | ⟨n, s1, h1, ⟨_, h⟩ | ⟨v, hv2, _⟩⟩
    · simp [run, h, h1, failureOf, Event.isSendTransaction]
    · simp [run, h, h1, failureOf, Event.isSendTransaction, SendError.kind]
    · simp [hv] at hv2
  · intro hne hbad
    have hg : SetString10 config.GasPrice = none := (SetString10_eq_none_iff _).mpr hbad
    rcases hcases with ⟨e, s1, h1, h⟩ | ⟨n, s1, h1, ⟨hv, h⟩ | ⟨v, hv, ⟨_, _, h⟩ | ⟨h0, _⟩ |
      ⟨g, s2, evs, ⟨_, hg2, _⟩ | ⟨h0, _⟩, _⟩⟩⟩
    · simp [run, h, h1, failureOf, Event.isSendTransaction]
    · simp [run, h, h1, hv, failureOf, Event.isSendTransaction]
    · simp [run, h, h1, hv, failureOf, Event.isSendTransaction, SendError.kind]
    · exact absurd h0 hne
    · simp [hg] at hg2
    · exact absurd h0 hne
  · intro hempty
    have hv : parseValue config = some 0 := by simp [parseValue, hempty]
    refine ⟨hv, ?_, fun n s1 g s2 evs d hnonce hgas hdata =>
      (exec_sendTransaction_builds lib L s config privateKeyHex index priv n s1 0 g s2 evs d
        hk hnonce hv hgas hdata).1⟩
    intro tx signer r hmem
    rcases hcases with ⟨e, s1, h1, h⟩ | ⟨n, s1, h1, ⟨hv2, h⟩ | ⟨v, hv2, ⟨_, _, h⟩ | ⟨_, e, s2, _, h⟩ |
      ⟨g, s2, evs, hgas, h⟩⟩⟩
    · simp [run, h] at hmem
    · simp [run, h] at hmem
    · simp [run, h] at hmem
    · simp [run, h] at hmem
    · rw [hv] at hv2
      simp at hv2
      subst hv2
      simp only [run, h, List.cons_append, List.mem_cons, List.mem_append] at hmem
      rcases hmem with hmem | hmem | hmem
      · simp at hmem
      · rcases hgas with ⟨_, _, _, rfl⟩ | ⟨_, _, rfl⟩ <;> simp at hmem
      · obtain ⟨d, _, htx, _⟩ := (exec_withGasPrice_sent lib L s2 config index priv _ n 0 g _ hmem).1
          tx signer r rfl
        simp [htx, NewTransaction]

/-- Witness of C3, for the key of scalar 1: the value string `12a` gives the Failure of kind
`InvalidAmount`; the empty value string resolves to 0 and the transaction with amount 0
(nonce 7, gas limit 21000, suggested gas price 5, no data) is handed to the signer. -/
theorem sendTransaction_invalid_number_witness :
    ((sendTransaction toyGeth { configA with Value := ascii "12a" } keyOne 0).exec toyGeth
      okLedger ()).value.Error.map SendError.kind = some .InvalidAmount ∧
    parseValue { configA with Value := [] } = some 0 ∧
    Event.SignTx (NewTransaction 7 (toyGeth.HexToAddress configA.ToAddress) 0 21000 5 [])
        { chainId := 56 }
        (.ok { NewTransaction 7 (toyGeth.HexToAddress configA.ToAddress) 0 21000 5 [] with
          V := 56 }) ∈
      ((sendTransaction toyGeth { configA with Value := [] } keyOne 0).exec toyGeth
        okLedger ()).trace :=
  ⟨((sendTransaction_invalid_number toyGeth okLedger () { configA with Value := ascii "12a" }
      keyOne 0 (keyOf toyGeth (trim0x keyOne)) (by rfl)).1 (by decide) (by decide)).2.2 7 () rfl
      |>.1,
    ((sendTransaction_invalid_number toyGeth okLedger () { configA with Value := [] }
      keyOne 0 (keyOf toyGeth (trim0x keyOne)) (by rfl)).2.2 (by rfl)).1,
    ((sendTransaction_invalid_number toyGeth okLedger () { configA with Value := [] }
      keyOne 0 (keyOf toyGeth (trim0x keyOne)) (by rfl)).2.2 (by rfl)).2.2 7 () 5 ()
      [.SuggestGasPrice (.ok 5)] [] (by rfl) (Or.inr ⟨by rfl, by rfl, by rfl⟩) (by rfl)⟩

/-- Counterexample to C3 as stated, for the key of scalar 1.  The value string `-5` is not
a base-10 non-negative integer, yet it is accepted as the amount -5: the transaction is
signed and handed to `SendTransaction`, and the outcome is not of kind `InvalidAmount`.
With the value string `abc` the outcome is of kind `NonceQueryFailed` when the nonce query
fails; with the value string `abc` and the gas-price string `xyz` it is of kind
`InvalidAmount`, not `InvalidGasPrice`. -/
theorem sendTransaction_negative_value_accepted :
    (isDecimal (ascii "-5") = false ∧
      SetString10 (ascii "-5") = some (-5) ∧
      ((sendTransaction toyGeth { configA with Value := ascii "-5" } keyOne 0).exec toyGeth
        strictLedger ()).value.Error.map SendError.kind = some .SubmitFailed ∧
      (((sendTransaction toyGeth { configA with Value := ascii "-5" } keyOne 0).exec toyGeth
        strictLedger ()).trace.any Event.isSendTransaction) = true) ∧
    ((sendTransaction toyGeth { configA with Value := ascii "abc" } keyOne 0).exec toyGeth
      downLedger ()).value.Error.map SendError.kind = some .NonceQueryFailed ∧
    ((sendTransaction toyGeth { configA with Value := ascii "abc", GasPrice := ascii "xyz" }
      keyOne 0).exec toyGeth okLedger ()).value.Error.map SendError.kind
        = some .InvalidAmount := by
  decide

/-! ## C4 and C5: the call data -/

theorem hexDigit_fromHexChar {c : Byte} {a : Nat} (h : fromHexChar c = some a) :
    hexDigit a = lowerHexLetter c := by
  unfold fromHexChar at h
  unfold hexDigit lowerHexLetter
  have hc := c.isLt
  split_ifs at h with h1 h2 h3 <;> simp at h <;> subst h
  · have e1 : ¬ (65 ≤ c.val ∧ c.val ≤ 70) := by omega
    have e2 : c.val - 48 < 10 := by omega
    simp only [e1, e2, if_true, if_false]
    apply Fin.ext
    simp [Fin.ofNat]
    omega
  · have e1 : ¬ (65 ≤ c.val ∧ c.val ≤ 70) := by omega
    have e2 : ¬ (c.val - 97 + 10 < 10) := by omega
    simp only [e1, e2, if_false]
    apply Fin.ext
    simp [Fin.ofNat]
    omega
  · have e2 : ¬ (c.val - 65 + 10 < 10) := by omega
    simp only [h3, e2, if_true, if_false]
    apply Fin.ext
    simp [Fin.ofNat, Fin.val_add]
    omega

theorem hexDecodeString_roundtrip {s : GoString} {bs : List Byte}
    (h : hexDecodeString s = .ok bs) : hexEncodeToString bs = s.map lowerHexLetter := by
  induction s using hexDecodeString.induct generalizing bs with
  | case1 => simp [hexDecodeString] at h; subst h; simp [hexEncodeToString]
  | case2 p hp => simp [hexDecodeString, hp] at h
  | case3 p a hp => simp [hexDecodeString, hp] at h
  | case4 p q rest hp => simp [hexDecodeString, hp] at h
  | case5 p q rest a hp hq => simp [hexDecodeString, hp, hq] at h
  | case6 p q rest a hp b hq e he ih => simp [hexDecodeString, hp, hq, he] at h
  | case7 p q rest a hp b hq bs0 hrest ih =>
    simp [hexDecodeString, hp, hq, hrest] at h
    subst h
    have ha := fromHexChar_lt hp
    have hb := fromHexChar_lt hq
    have hv := ofNat_nibbles_val ha hb
    have h1 : (Fin.ofNat (a * 16 + b) : Byte).val / 16 = a := by rw [hv]; omega
    have h2 : (Fin.ofNat (a * 16 + b) : Byte).val % 16 = b := by rw [hv]; omega
    simp only [hexEncodeToString, h1, h2, List.map_cons, ih hrest, hexDigit_fromHexChar hp,
      hexDigit_fromHexChar hq]

theorem hexDecodeString_ascii0x : hexDecodeString (ascii "0x") = .error (.InvalidByte 120) := by
  rfl

theorem trim0x_eq_strip_of_ne {s : GoString} (h : s ≠ ascii "0x") :
    trim0x s = stripOptional0x s := by
  unfold trim0x stripOptional0x
  by_cases h1 : s.take 2 = ascii "0x"
  · by_cases h2 : s.length > 2
    · simp [h1, h2]
    · exact absurd (take_two_ascii0x h1 h2) h
  · simp [h1]

/-- Apart from the string `0x` alone, the data stage does what C4 says: it decodes the
digits that follow the optional `0x`, and fails exactly when they are malformed. -/
theorem parseData_of_ne_bare0x (config : Config) (h : config.Data ≠ ascii "0x") :
    parseData config = hexDecodeString (stripOptional0x config.Data) := by
  unfold parseData
  by_cases h1 : config.Data = []
  · simp [h1, stripOptional0x, hexDecodeString]
  · simp [h1, trim0x_eq_strip_of_ne h]

/-- C4 at the string `0x`: a prefix followed by zero digits.  The specification asks for
success with no payload (the digits after the prefix decode to no byte); the length guard
of line 212 leaves the prefix in place, `hex.DecodeString` meets the byte `x`, and
`sendTransaction` returns a Failure of kind `InvalidData`. -/
theorem sendTransaction_bare_0x_data :
    hexDecodeString (stripOptional0x (ascii "0x")) = .ok [] ∧
    parseData { configA with Data := ascii "0x" } = .error (.InvalidByte 120) ∧
    ((sendTransaction toyGeth { configA with Data := ascii "0x" } keyOne 0).exec toyGeth
      okLedger ()).value =
      failureOf toyGeth (addressOf toyGeth (keyOf toyGeth (trim0x keyOne)))
        (.parseData (.InvalidByte 120)) ∧
    (SendError.parseData (.InvalidByte 120)).kind = .InvalidData := by
  refine ⟨by rfl, by rfl, by rfl, by rfl⟩

/-- Every transaction that a run of `sendTransaction` hands to the signer is the one of
line 225, built from the value and the data that the two stages resolved, and the signer
is the one of the configured chain identifier. -/
theorem exec_sendTransaction_signed {σ : Type} (lib : Geth) (L : Ledger σ) (s : σ)
    (config : Config) (key : GoString) (index : Nat) (tx : Transaction) (signer : EIP155Signer)
    (r : Except GoError Transaction)
    (h : Event.SignTx tx signer r ∈ ((sendTransaction lib config key index).exec lib L s).trace) :
    ∃ n v g d, parseValue config = some v ∧ parseData config = .ok d ∧
      tx = NewTransaction n (lib.HexToAddress config.ToAddress) v config.GasLimit g d ∧
      signer = { chainId := config.ChainID } := by
  cases hk : HexToECDSA lib (trim0x key) with
  | error err =>
    simp [sendTransaction, hk, Prog.exec] at h
  | ok priv =>
    have hcases := exec_sendTransaction_cases lib L s config key index priv hk
    simp only at hcases
    rcases hcases with ⟨e', s1, h1, hr⟩ | ⟨n, s1, h1, ⟨hv, hr⟩ | ⟨v, hv, ⟨_, _, hr⟩ | ⟨_, e', s2, _, hr⟩ |
      ⟨g, s2, evs, hgas, hr⟩⟩⟩
    · rw [hr] at h; simp at h
    · rw [hr] at h; simp at h
    · rw [hr] at h; simp at h
    · rw [hr] at h; simp at h
    · rw [hr] at h
      simp only [List.cons_append, List.mem_cons, List.mem_append] at h
      rcases h with h | h | h
      · simp at h
      · rcases hgas with ⟨_, _, _, rfl⟩ | ⟨_, _, rfl⟩ <;> simp at h
      · obtain ⟨d, hd, htx, hsg⟩ :=
          (exec_withGasPrice_sent lib L s2 config index priv _ n v g _ h).1 tx signer r rfl
        exact ⟨n, v, g, d, hv, hd, htx, hsg⟩

/-- C5: when the decoding of the configured data in `sendTransaction` succeeds, the
hexadecimal encoding of the decoded bytes is the configured string without its optional
`0x` and with its hexadecimal letters in lower case; and the decoded bytes are the data of
every transaction that `sendTransaction` builds and hands to the signer. -/
theorem parseData_roundtrip (config : Config) (data : List Byte)
    (h : parseData config = .ok data) :
    hexEncodeToString data = normalizeHex config.Data ∧
    ∀ {σ : Type} (lib : Geth) (L : Ledger σ) (s : σ) (key : GoString) (index : Nat)
      (tx : Transaction) (signer : EIP155Signer) (r : Except GoError Transaction),
      Event.SignTx tx signer r ∈ ((sendTransaction lib config key index).exec lib L s).trace →
      tx.data = data := by
  constructor
  · by_cases h0 : config.Data = ascii "0x"
    · have ht : trim0x (ascii "0x") = ascii "0x" := by decide
      rw [parseData, h0, if_pos (by decide), ht, hexDecodeString_ascii0x] at h
      simp at h
    · rw [parseData_of_ne_bare0x config h0] at h
      exact hexDecodeString_roundtrip h
  · intro σ lib L s key index tx signer r hmem
    obtain ⟨n, v, g, d, _, hd, htx, _⟩ :=
      exec_sendTransaction_signed lib L s config key index tx signer r hmem
    rw [h] at hd
    simp only [Except.ok.injEq] at hd
    subst hd
    simp [htx, NewTransaction]

/-- Witness of C5: the data `0xAbCd01` decodes to three bytes that encode to `abcd01`. -/
theorem parseData_roundtrip_witness :
    parseData { configA with Data := ascii "0xAbCd01" } = .ok [171, 205, 1] ∧
    hexEncodeToString [171, 205, 1] = ascii "abcd01" ∧
    hexEncodeToString [171, 205, 1] = normalizeHex (ascii "0xAbCd01") :=
  ⟨by rfl, by decide,
    (parseData_roundtrip { configA with Data := ascii "0xAbCd01" } [171, 205, 1] (by rfl)).1⟩

/-! ## C6: the gas price -/

/-- C6: for a resolved account whose nonce query succeeded (returning `n`, leaving the
ledger in `s1`),
* if the gas-price string is non-empty and valid, `SuggestGasPrice` is not called, every
  transaction that is built (handed to the signer) has the parsed gas price `g`, and once
  the value resolved to `v` and the data to `d` the transaction `(n, to, v, gas limit, g, d)`
  is built;
* if the string is empty, the gas price of every transaction that is built is the value
  that `SuggestGasPrice` returned in `s1`; when that query fails, the outcome is a Failure
  of kind `GasPriceQueryFailed` with the address of the account, nothing is signed and
  `SendTransaction` is not called; the query is made, and so fails when the ledger fails it
  in `s1`, as soon as the value string was accepted; and when the ledger answers it with
  `g`, once the value resolved to `v` and the data to `d`, the query is in the trace and
  the transaction `(n, to, v, gas limit, g, d)` is built. -/
theorem sendTransaction_gas_price {σ : Type} (lib : Geth) (L : Ledger σ) (s : σ)
    (config : Config) (privateKeyHex : GoString) (index : Nat) (priv : PrivateKey)
    (n : Nat) (s1 : σ)
    (hk : HexToECDSA lib (trim0x privateKeyHex) = .ok priv)
    (hnonce : L.PendingNonceAt (addressOf lib priv) s = (.ok n, s1)) :
    let run := (sendTransaction lib config privateKeyHex index).exec lib L s
    (config.GasPrice ≠ [] → ∀ g, SetString10 config.GasPrice = some g →
      (∀ ev ∈ run.trace, ev.isSuggestGasPrice = false) ∧
      (∀ tx signer r, Event.SignTx tx signer r ∈ run.trace → tx.gasPrice = g) ∧
      (∀ v d, parseValue config = some v → parseData config = .ok d →
        Event.SignTx
            (NewTransaction n (lib.HexToAddress config.ToAddress) v config.GasLimit g d)
            { chainId := config.ChainID }
            (lib.SignTx
              (NewTransaction n (lib.HexToAddress config.ToAddress) v config.GasLimit g d)
              { chainId := config.ChainID } priv) ∈ run.trace)) ∧
    (config.GasPrice = [] →
      (∀ tx signer r, Event.SignTx tx signer r ∈ run.trace →
        Event.SuggestGasPrice (.ok tx.gasPrice) ∈ run.trace ∧
        ∃ s2, L.SuggestGasPrice s1 = (.ok tx.gasPrice, s2)) ∧
      (∀ e, Event.SuggestGasPrice (.error e) ∈ run.trace →
        run.value.Error.map SendError.kind = some .GasPriceQueryFailed ∧
        run.value = failureOf lib (addressOf lib priv) (.suggestGasPrice e) ∧
        (∀ ev ∈ run.trace, ev.isSendTransaction = false) ∧
        (∀ tx signer r, Event.SignTx tx signer r ∉ run.trace)) ∧
      (∀ v e s2, parseValue config = some v → L.SuggestGasPrice s1 = (.error e, s2) →
        Event.SuggestGasPrice (.error e) ∈ run.trace) ∧
      (∀ v d g s2, parseValue config = some v → parseData config = .ok d →
        L.SuggestGasPrice s1 = (.ok g, s2) →
        Event.SuggestGasPrice (.ok g) ∈ run.trace ∧
        Event.SignTx
            (NewTransaction n (lib.HexToAddress config.ToAddress) v config.GasLimit g d)
            { chainId := config.ChainID }
            (lib.SignTx
              (NewTransaction n (lib.HexToAddress config.ToAddress) v config.GasLimit g d)
              { chainId := config.ChainID } priv) ∈ run.trace)) := by
  intro run
  have hpos1 : config.GasPrice ≠ [] → ∀ g, SetString10 config.GasPrice = some g →
      ∀ v d, parseValue config = some v → parseData config = .ok d →
        Event.SignTx
            (NewTransaction n (lib.HexToAddress config.ToAddress) v config.GasLimit g d)
            { chainId := config.ChainID }
            (lib.SignTx
              (NewTransaction n (lib.HexToAddress config.ToAddress) v config.GasLimit g d)
              { chainId := config.ChainID } priv) ∈ run.trace :=
    fun hne g hg v d hv hd =>
      (exec_sendTransaction_builds lib L s config privateKeyHex index priv n s1 v g s1 [] d
        hk hnonce hv (Or.inl ⟨hne, hg, rfl, rfl⟩) hd).1
  have hpos2 : config.GasPrice = [] → ∀ v d g s2, parseValue config = some v →
      parseData config = .ok d → L.SuggestGasPrice s1 = (.ok g, s2) →
        Event.SuggestGasPrice (.ok g) ∈ run.trace ∧
        Event.SignTx
            (NewTransaction n (lib.HexToAddress config.ToAddress) v config.GasLimit g d)
            { chainId := config.ChainID }
            (lib.SignTx
              (NewTransaction n (lib.HexToAddress config.ToAddress) v config.GasLimit g d)
              { chainId := config.ChainID } priv) ∈ run.trace := by
    intro hempty v d g s2 hv hd hs
    have := exec_sendTransaction_builds lib L s config privateKeyHex index priv n s1 v g s2
      [.SuggestGasPrice (.ok g)] d hk hnonce hv (Or.inr ⟨hempty, hs, rfl⟩) hd
    exact ⟨this.2 _ (by simp), this.1⟩
  have hcases := exec_sendTransaction_cases lib L s config privateKeyHex index priv hk
  simp only [hnonce] at hcases
  rcases hcases with ⟨e, s1', h1, _⟩ | ⟨n', s1', h1, hrest⟩
  · simp at h1
  · simp only [Prod.mk.injEq, Except.ok.injEq] at h1
    obtain ⟨rfl, rfl⟩ := h1
    refine ⟨?_, ?_⟩
    · intro hne g hg
      suffices hmain : (∀ ev ∈ run.trace, ev.isSuggestGasPrice = false) ∧
          (∀ tx signer r, Event.SignTx tx signer r ∈ run.trace → tx.gasPrice = g) from
        ⟨hmain.1, hmain.2, hpos1 hne g hg⟩
      rcases hrest with ⟨_, h⟩ | ⟨v, hv, ⟨_, hg2, h⟩ | ⟨h0, _⟩ | ⟨g', s2, evs, hgas, h⟩⟩
      · simp [run, h, Event.isSuggestGasPrice]
      · simp [hg] at hg2
      · exact absurd h0 hne
      · rcases hgas with ⟨_, hg2, rfl, rfl⟩ | ⟨h0, _⟩
        · rw [hg] at hg2
          simp only [Option.some.injEq] at hg2
          subst hg2
          constructor
          · intro ev hev
            simp only [run, h, List.cons_append, List.nil_append, List.mem_cons] at hev
            rcases hev with rfl | hev
            · rfl
            · exact (exec_withGasPrice_sent lib L _ config index priv _ n v g ev hev).2
          · intro tx signer r hev
            simp only [run, h, List.cons_append, List.nil_append, List.mem_cons] at hev
            rcases hev with hev | hev
            · simp at hev
            · obtain ⟨d, _, htx, _⟩ :=
                (exec_withGasPrice_sent lib L _ config index priv _ n v g _ hev).1 tx signer r rfl
              simp [htx, NewTransaction]
        · exact absurd h0 hne
    · intro hempty
      suffices hmain :
          (∀ tx signer r, Event.SignTx tx signer r ∈ run.trace →
            Event.SuggestGasPrice (.ok tx.gasPrice) ∈ run.trace ∧
            ∃ s2, L.SuggestGasPrice s1 = (.ok tx.gasPrice, s2)) ∧
          (∀ e, Event.SuggestGasPrice (.error e) ∈ run.trace →
            run.value.Error.map SendError.kind = some .GasPriceQueryFailed ∧
            run.value = failureOf lib (addressOf lib priv) (.suggestGasPrice e) ∧
            (∀ ev ∈ run.trace, ev.isSendTransaction = false) ∧
            (∀ tx signer r, Event.SignTx tx signer r ∉ run.trace)) ∧
          (∀ v e s2, parseValue config = some v → L.SuggestGasPrice s1 = (.error e, s2) →
            Event.SuggestGasPrice (.error e) ∈ run.trace) from
        ⟨hmain.1, hmain.2.1, hmain.2.2, hpos2 hempty⟩
      rcases hrest with ⟨hv, h⟩ | ⟨v, hv, ⟨hne, _⟩ | ⟨_, e, s2, hs, h⟩ | ⟨g', s2, evs, hgas, h⟩⟩
      · refine ⟨?_, ?_, ?_⟩
        · intro tx signer r hev; simp [run, h] at hev
        · intro e hev; simp [run, h] at hev
        · intro v e s2 hv2; simp [hv] at hv2
      · exact absurd hempty hne
      · refine ⟨?_, ?_, ?_⟩
        · intro tx signer r hev; simp [run, h] at hev
        · intro e' hev
          simp [run, h] at hev
          subst hev
          simp [run, h, failureOf, SendError.kind, Event.isSendTransaction]
        · intro v' e' s2' _ hs2
          rw [hs] at hs2
          simp at hs2
          simp [run, h, hs2.1]
      · rcases hgas with ⟨hne, _⟩ | ⟨_, hs, rfl⟩
        · exact absurd hempty hne
        · refine ⟨?_, ?_, ?_⟩
          · intro tx signer r hev
            simp only [run, h, List.cons_append, List.nil_append, List.mem_cons] at hev
            rcases hev with hev | hev | hev
            · simp at hev
            · simp at hev
            · obtain ⟨d, _, htx, _⟩ :=
                (exec_withGasPrice_sent lib L _ config index priv _ n v g' _ hev).1 tx signer r rfl
              have hgp : tx.gasPrice = g' := by simp [htx, NewTransaction]
              rw [hgp]
              exact ⟨by simp [run, h], s2, hs⟩
          · intro e hev
            simp only [run, h, List.cons_append, List.nil_append, List.mem_cons] at hev
            rcases hev with hev | hev | hev
            · simp at hev
            · simp at hev
            · have := (exec_withGasPrice_sent lib L _ config index priv _ n v g' _ hev).2
              simp [Event.isSuggestGasPrice] at this
          · intro v' e s2' _ hs2
            rw [hs] at hs2
            simp at hs2

/-- Witness of C6, for the key of scalar 1 and a ledger that accepts every call.  With no
gas price configured the query is made and the transaction built has the suggested price
5; with the gas price `9` configured the transaction built has the price 9. -/
theorem sendTransaction_gas_price_witness :
    (Event.SuggestGasPrice (.ok 5) ∈
        ((sendTransaction toyGeth configA keyOne 0).exec toyGeth okLedger ()).trace ∧
      Event.SignTx (NewTransaction 7 (toyGeth.HexToAddress configA.ToAddress) 0 21000 5 [])
          { chainId := 56 }
          (.ok { NewTransaction 7 (toyGeth.HexToAddress configA.ToAddress) 0 21000 5 [] with
            V := 56 }) ∈
        ((sendTransaction toyGeth configA keyOne 0).exec toyGeth okLedger ()).trace) ∧
    Event.SignTx (NewTransaction 7 (toyGeth.HexToAddress configA.ToAddress) 0 21000 9 [])
        { chainId := 56 }
        (.ok { NewTransaction 7 (toyGeth.HexToAddress configA.ToAddress) 0 21000 9 [] with
          V := 56 }) ∈
      ((sendTransaction toyGeth { configA with GasPrice := ascii "9" } keyOne 0).exec toyGeth
        okLedger ()).trace :=
  ⟨((sendTransaction_gas_price toyGeth okLedger () configA keyOne 0
      (keyOf toyGeth (trim0x keyOne)) 7 () (by rfl) (by rfl)).2 (by rfl)).2.2.2 0 [] 5 ()
      (by rfl) (by rfl) (by rfl),
    ((sendTransaction_gas_price toyGeth okLedger ()
      { configA with GasPrice := ascii "9" } keyOne 0
      (keyOf toyGeth (trim0x keyOne)) 7 () (by rfl) (by rfl)).1 (by decide) 9 (by rfl)).2.2
      0 [] (by rfl) (by rfl)⟩

/-! ## C7: every error becomes a Failure outcome -/

theorem exec_withGasPrice_value {σ : Type} (lib : Geth) (L : Ledger σ) (s : σ)
    (config : Config) (index : Nat) (priv : PrivateKey) (a : Address) (n : Nat) (v g : Int) :
    let run := (withGasPrice lib config index priv a n v g).exec lib L s
    run.value.Address = lib.AddressHex a ∧
    (∀ err, run.value.Error = some err → err.kind ≠ .InvalidKey) ∧
    (run.value.Error = none →
      (∃ d, parseData config = .ok d) ∧ ∀ ev ∈ run.trace, ev.failure = none) := by
  intro run
  rcases exec_withGasPrice_cases lib L s config index priv a n v g with
    ⟨e, _, h⟩ | ⟨d, hd, ⟨e, _, h⟩ | ⟨stx, _, ⟨e, s3, _, h⟩ | ⟨s3, _, h⟩⟩⟩
  · simp [run, h, failureOf, SendError.kind]
  · simp [run, h, failureOf, SendError.kind]
  · simp [run, h, failureOf, SendError.kind]
  · simp [run, h, hd, Event.failure]

/-- C7: `sendTransaction` always returns a `TransactionResult`, and no error is lost: a
Success outcome (`Error` is `nil`) is returned only when the key resolved, the value,
gas-price and data strings were accepted and no call of the run failed.  A Failure outcome
has the empty address exactly when its kind is `InvalidKey`, which is the case exactly
when the key resolution failed (no call is made then); when the key resolved, a Failure
of any later stage carries the derived address of the account. -/
theorem sendTransaction_failure_address {σ : Type} (lib : Geth) (L : Ledger σ) (s : σ)
    (config : Config) (privateKeyHex : GoString) (index : Nat) :
    let run := (sendTransaction lib config privateKeyHex index).exec lib L s
    (run.value.Error = none →
      (∃ priv, HexToECDSA lib (trim0x privateKeyHex) = .ok priv) ∧
      parseValue config ≠ none ∧
      (config.GasPrice ≠ [] → SetString10 config.GasPrice ≠ none) ∧
      (∃ d, parseData config = .ok d) ∧
      ∀ ev ∈ run.trace, ev.failure = none) ∧
    (∀ err, run.value.Error = some err →
      (run.value.Address = [] ↔ err.kind = .InvalidKey) ∧
      (∀ e, HexToECDSA lib (trim0x privateKeyHex) = .error e →
        err = .parsePrivateKey e ∧ run.value.Address = [] ∧ run.trace = []) ∧
      (∀ priv, HexToECDSA lib (trim0x privateKeyHex) = .ok priv →
        run.value.Address = lib.AddressHex (addressOf lib priv) ∧ err.kind ≠ .InvalidKey)) := by
  intro run
  cases hk : HexToECDSA lib (trim0x privateKeyHex) with
  | error e =>
    have hrun : run = { value := { Error := some (.parsePrivateKey e) }, ledger := s, trace := [] } := by
      simp [run, sendTransaction, hk, Prog.exec]
    refine ⟨by simp [hrun], ?_⟩
    intro err herr
    simp [hrun] at herr
    subst herr
    simp [hrun, SendError.kind]
  | ok priv =>
    have hne := AddressHex_ne_nil lib (addressOf lib priv)
    have hcases := exec_sendTransaction_cases lib L s config privateKeyHex index priv hk
    simp only at hcases
    have key : run.value.Address = lib.AddressHex (addressOf lib priv) ∧
        (∀ err, run.value.Error = some err → err.kind ≠ .InvalidKey) ∧
        (run.value.Error = none → parseValue config ≠ none ∧
          (config.GasPrice ≠ [] → SetString10 config.GasPrice ≠ none) ∧
          (∃ d, parseData config = .ok d) ∧ ∀ ev ∈ run.trace, ev.failure = none) := by
      rcases hcases with ⟨e, s1, h1, h⟩ | ⟨n, s1, h1, ⟨hv, h⟩ | ⟨v, hv, ⟨_, _, h⟩ | ⟨_, e, s2, _, h⟩ |
        ⟨g, s2, evs, hgas, h⟩⟩⟩
      · simp [run, h, failureOf, SendError.kind]
      · simp [run, h, failureOf, SendError.kind]
      · simp [run, h, failureOf, SendError.kind]
      · simp [run, h, failureOf, SendError.kind]
      · obtain ⟨g1, g2, g3⟩ := exec_withGasPrice_value lib L s2 config index priv
          (addressOf lib priv) n v g
        refine ⟨by simp [run, h, g1], ?_, ?_⟩
        · intro err herr
          exact g2 err (by simpa [run, h] using herr)
        · intro hnone
          obtain ⟨g4, g5⟩ := g3 (by simpa [run, h] using hnone)
          refine ⟨by simp [hv], ?_, g4, ?_⟩
          · intro hne2
            rcases hgas with ⟨_, hg, _⟩ | ⟨h0, _⟩
            · simp [hg]
            · exact absurd h0 hne2
          · intro ev hev
            simp only [run, h, List.cons_append, List.mem_cons, List.mem_append] at hev
            rcases hev with rfl | hev | hev
            · rfl
            · rcases hgas with ⟨_, _, _, rfl⟩ | ⟨_, _, rfl⟩
              · simp at hev
              · simp at hev; subst hev; rfl
            · exact g5 ev hev
    obtain ⟨k1, k2, k3⟩ := key
    refine ⟨fun hnone => ⟨⟨priv, rfl⟩, k3 hnone⟩, ?_⟩
    intro err herr
    refine ⟨?_, by simp, ?_⟩
    · rw [k1]
      constructor
      · intro h; exact absurd h hne
      · intro h; exact absurd h (k2 err herr)
    · intro priv' hp
      simp only [Except.ok.injEq] at hp
      subst hp
      exact ⟨k1, k2 err herr⟩

/-! ## C9: the successful run -/

theorem hexDigit_isHexDigit {n : Nat} (h : n < 16) : isHexDigit (hexDigit n) = true := by
  interval_cases n <;> decide

theorem hexEncodeToString_digits (bs : List Byte) :
    (hexEncodeToString bs).length = 2 * bs.length ∧
      ∀ c ∈ hexEncodeToString bs, isHexDigit c = true := by
  induction bs with
  | nil => simp [hexEncodeToString]
  | cons b bs ih =>
    have hb := b.isLt
    refine ⟨by simp [hexEncodeToString, ih.1]; omega, ?_⟩
    intro c hc
    simp only [hexEncodeToString, List.mem_cons] at hc
    rcases hc with rfl | rfl | hc
    · exact hexDigit_isHexDigit (by omega)
    · exact hexDigit_isHexDigit (by omega)
    · exact ih.2 c hc

theorem trim0x_of_isSecp256k1Key {key : GoString}
    (h : isSecp256k1Key (stripOptional0x key) = true) : trim0x key = stripOptional0x key := by
  apply trim0x_eq_strip_of_ne
  rintro rfl
  revert h
  decide

/-- C9: for a well-formed key (an optional `0x`, then a well-formed secp256k1 private key),
when the nonce query returns `n`, the value string resolves to `v`, the gas price resolves
to `g` (from the configuration or from `SuggestGasPrice`), the data resolves to `d`,
signing the transaction `(n, to, v, gas limit, g, d)` for the configured chain identifier
with this key gives `stx` and the ledger client accepts `stx`, `sendTransaction` returns
the Success outcome: `Error` is `nil`, `Address` is the derived address of the account,
and `TxHash` is the identifier of `stx`, the transaction that was submitted: `0x` followed
by 64 hexadecimal digits. -/
theorem sendTransaction_success {σ : Type} (lib : Geth) (L : Ledger σ) (s : σ)
    (config : Config) (privateKeyHex : GoString) (index : Nat)
    (n : Nat) (s1 : σ) (v g : Int) (s2 : σ) (evs : List Event) (d : List Byte)
    (stx : Transaction) (s3 : σ)
    (hkey : isSecp256k1Key (stripOptional0x privateKeyHex) = true)
    (hnonce : L.PendingNonceAt (addressOf lib (keyOf lib (stripOptional0x privateKeyHex))) s
      = (.ok n, s1))
    (hvalue : parseValue config = some v)
    (hgas : GasPriceFrom L config s1 g s2 evs)
    (hdata : parseData config = .ok d)
    (hsign : lib.SignTx (NewTransaction n (lib.HexToAddress config.ToAddress) v config.GasLimit g d)
      { chainId := config.ChainID } (keyOf lib (stripOptional0x privateKeyHex)) = .ok stx)
    (hsend : L.SendTransaction stx s2 = (none, s3)) :
    let run := (sendTransaction lib config privateKeyHex index).exec lib L s
    let a := addressOf lib (keyOf lib (stripOptional0x privateKeyHex))
    run.value = { Address := lib.AddressHex a, TxHash := (lib.TxHash stx).Hex, Error := none } ∧
    run.ledger = s3 ∧
    run.trace = Event.PendingNonceAt a (.ok n) :: evs ++
      [.SignTx (NewTransaction n (lib.HexToAddress config.ToAddress) v config.GasLimit g d)
          { chainId := config.ChainID } (.ok stx),
        .SendTransaction stx none,
        .Printf (.sent (index + 1) (lib.AddressHex a) (lib.TxHash stx).Hex)] ∧
    ∃ digits, run.value.TxHash = ascii "0x" ++ digits ∧ digits.length = 64 ∧
      ∀ c ∈ digits, isHexDigit c = true := by
  intro run a
  have hk : HexToECDSA lib (trim0x privateKeyHex) = .ok (keyOf lib (stripOptional0x privateKeyHex)) := by
    rw [trim0x_of_isSecp256k1Key hkey]
    exact (HexToECDSA_ok_iff lib _ _).mpr ⟨hkey, rfl⟩
  have hcases := exec_sendTransaction_cases lib L s config privateKeyHex index _ hk
  simp only [hnonce] at hcases
  have hrun : run = { value := { Address := lib.AddressHex a, TxHash := (lib.TxHash stx).Hex,
                                 Error := none },
                      ledger := s3,
                      trace := Event.PendingNonceAt a (.ok n) :: evs ++
      [.SignTx (NewTransaction n (lib.HexToAddress config.ToAddress) v config.GasLimit g d)
          { chainId := config.ChainID } (.ok stx),
        .SendTransaction stx none,
        .Printf (.sent (index + 1) (lib.AddressHex a) (lib.TxHash stx).Hex)] } := by
    rcases hcases with ⟨e, s1', h1, _⟩ | ⟨n', s1', h1, hrest⟩
    · simp at h1
    · simp only [Prod.mk.injEq, Except.ok.injEq] at h1
      obtain ⟨rfl, rfl⟩ := h1
      rcases hrest with ⟨hv, _⟩ | ⟨v', hv, hrest⟩
      · simp [hvalue] at hv
      · rw [hvalue] at hv
        simp only [Option.some.injEq] at hv
        subst hv
        have hsub :
            (withGasPrice lib config index (keyOf lib (stripOptional0x privateKeyHex)) a n v g).exec
              lib L s2 =
            { value := { Address := lib.AddressHex a, TxHash := (lib.TxHash stx).Hex, Error := none },
              ledger := s3,
              trace := [.SignTx (NewTransaction n (lib.HexToAddress config.ToAddress) v
                  config.GasLimit g d) { chainId := config.ChainID } (.ok stx),
                .SendTransaction stx none,
                .Printf (.sent (index + 1) (lib.AddressHex a) (lib.TxHash stx).Hex)] } := by
          simp [withGasPrice, hdata, Prog.exec, hsign, hsend]
        rcases hrest with ⟨hne, hg2, _⟩ | ⟨h0, e, s2', hs2, _⟩ | ⟨g', s2', evs', hgas', h⟩
        · rcases hgas with ⟨_, hg, _⟩ | ⟨hempty, _⟩
          · simp [hg] at hg2
          · exact absurd hempty hne
        · rcases hgas with ⟨hne, _⟩ | ⟨_, hs, _⟩
          · exact absurd h0 hne
          · simp [hs] at hs2
        · obtain ⟨e1, e2, e3⟩ := GasPriceFrom_unique hgas hgas'
          subst e1 e2 e3
          simp [run, h, hsub, a]
  refine ⟨by rw [hrun], by rw [hrun], by rw [hrun], ?_⟩
  refine ⟨hexEncodeToString (lib.TxHash stx).bytes, by rw [hrun]; rfl, ?_, ?_⟩
  · rw [(hexEncodeToString_digits _).1, (lib.TxHash stx).size]
  · exact (hexEncodeToString_digits _).2

/-- Witness of C9: scenario A (value 0, gas limit 21000, no data, no gas price) for the
key of scalar 1, against a ledger that accepts every call. -/
theorem sendTransaction_success_witness :
    ((sendTransaction toyGeth configA keyOne 0).exec toyGeth okLedger ()).value.Error = none ∧
    ((sendTransaction toyGeth configA keyOne 0).exec toyGeth okLedger ()).value.TxHash.length
      = 66 :=
  have h := sendTransaction_success toyGeth okLedger () configA keyOne 0 7 () 0 5 ()
    [.SuggestGasPrice (.ok 5)] []
    { NewTransaction 7 (toyGeth.HexToAddress configA.ToAddress) 0 21000 5 [] with V := 56 } ()
    (by decide) (by rfl) (by rfl) (Or.inr ⟨by rfl, by rfl, by rfl⟩) (by rfl) (by rfl) (by rfl)
  ⟨by rw [h.1], by rw [h.1]; decide⟩

/-- Witness of C7: the nonce query fails for the key of scalar 1; the Failure carries the
address of the account, which is not empty. -/
theorem sendTransaction_failure_address_witness :
    ((sendTransaction toyGeth configA keyOne 0).exec toyGeth downLedger ()).value.Error
      = some (.nonce "down") ∧
    (((sendTransaction toyGeth configA keyOne 0).exec toyGeth downLedger ()).value.Address = [] ↔
      (SendError.nonce "down").kind = .InvalidKey) :=
  ⟨by decide,
    ((sendTransaction_failure_address toyGeth downLedger () configA keyOne 0).2 (.nonce "down")
      (by decide)).1⟩

/-! ## The pool: every goroutine is a run of its program against its own responses -/

theorem eventsOf_append (i : Nat) (t1 t2 : List (Nat × Event)) :
    eventsOf i (t1 ++ t2) = eventsOf i t1 ++ eventsOf i t2 := by
  simp [eventsOf]

theorem eventsOf_map_self (i : Nat) (tr : List Event) :
    eventsOf i (tr.map (fun e => (i, e))) = tr := by
  induction tr with
  | nil => simp [eventsOf]
  | cons e tr ih =>
    simp only [eventsOf, List.map_cons] at ih ⊢
    simp [ih]

theorem eventsOf_map_other {i j : Nat} (h : j ≠ i) (tr : List Event) :
    eventsOf j (tr.map (fun e => (i, e))) = [] := by
  induction tr with
  | nil => simp [eventsOf]
  | cons e tr ih =>
    simp only [eventsOf, List.map_cons] at ih ⊢
    simp [ih, h.symm]

theorem filter_map_self (i : Nat) (res : List TransactionResult) :
    (res.map (fun r => (i, r))).filter (fun x => x.1 = i) = res.map (fun r => (i, r)) := by
  induction res with
  | nil => simp
  | cons e tr ih => simp [ih]

theorem filter_map_other {i j : Nat} (h : j ≠ i) (res : List TransactionResult) :
    (res.map (fun r => (i, r))).filter (fun x => x.1 = j) = [] := by
  induction res with
  | nil => simp
  | cons e tr ih => simp [ih, h.symm]

theorem scriptLedger_nonce (a : Address) (r : Except GoError Nat) (rest : List Response) :
    scriptLedger.PendingNonceAt a (.nonce r :: rest) = (r, rest) := rfl

theorem scriptLedger_gasPrice (r : Except GoError Int) (rest : List Response) :
    scriptLedger.SuggestGasPrice (.gasPrice r :: rest) = (r, rest) := rfl

theorem scriptLedger_sent (tx : Transaction) (r : Option GoError) (rest : List Response) :
    scriptLedger.SendTransaction tx (.sent r :: rest) = (r, rest) := rfl

/-- Replaying to a program the responses it got reproduces its run. -/
theorem exec_replay {σ α : Type} (lib : Geth) (L : Ledger σ) (p : Prog α) (s : σ) :
    p.exec lib scriptLedger ((p.exec lib L s).trace.filterMap Event.response) =
      { value := (p.exec lib L s).value, ledger := [], trace := (p.exec lib L s).trace } := by
  induction p generalizing s with
  | ret a => simp [Prog.exec]
  | PendingNonceAt account k ih =>
    have := ih (L.PendingNonceAt account s).1 (L.PendingNonceAt account s).2
    simp [Prog.exec, Event.response, scriptLedger_nonce, scriptLedger_gasPrice, scriptLedger_sent,
      this]
  | SuggestGasPrice k ih =>
    have := ih (L.SuggestGasPrice s).1 (L.SuggestGasPrice s).2
    simp [Prog.exec, Event.response, scriptLedger_nonce, scriptLedger_gasPrice, scriptLedger_sent,
      this]
  | SignTx tx signer prv k ih =>
    have := ih (lib.SignTx tx signer prv) s
    simp [Prog.exec, Event.response, this]
  | SendTransaction tx k ih =>
    have := ih (L.SendTransaction tx s).1 (L.SendTransaction tx s).2
    simp [Prog.exec, Event.response, scriptLedger_nonce, scriptLedger_gasPrice, scriptLedger_sent,
      this]
  | Printf line k ih =>
    have := ih s
    simp [Prog.exec, Event.response, this]

theorem Pool.Inv.update {σ : Type} {lib : Geth} {progs : List (Prog TransactionResult)}
    {P : Pool σ} (h : P.Inv lib progs) (i : Nat) (p0 : Prog TransactionResult)
    (hp0 : progs[i]? = some p0) (w : Option (Prog TransactionResult)) (tr : List Event)
    (res : List TransactionResult) (s : σ)
    (hproj : Projected lib p0 w (eventsOf i P.trace ++ tr)
      (P.results.filter (fun x => x.1 = i) ++ res.map (fun r => (i, r))) i) :
    Pool.Inv lib progs
      { ledger := s, workers := P.workers.set i w,
        results := P.results ++ res.map (fun r => (i, r)),
        trace := P.trace ++ tr.map (fun e => (i, e)) } := by
  obtain ⟨h1, h2, ht, h3⟩ := h
  have hi : i < progs.length := by
    by_contra hcon
    rw [List.getElem?_eq_none (by omega)] at hp0
    simp at hp0
  refine ⟨by simp [h1], ?_, ?_, ?_⟩
  · intro x hx
    simp only [List.mem_append, List.mem_map] at hx
    rcases hx with hx | ⟨r, _, rfl⟩
    · exact h2 x hx
    · exact hi
  · intro x hx
    simp only [List.mem_append, List.mem_map] at hx
    rcases hx with hx | ⟨r, _, rfl⟩
    · exact ht x hx
    · exact hi
  · intro j q0 hq0
    by_cases hji : j = i
    · subst hji
      rw [hp0] at hq0
      simp only [Option.some.injEq] at hq0
      subst hq0
      refine ⟨w, by simp [List.getElem?_set, h1, hi], ?_⟩
      simpa [eventsOf_append, eventsOf_map_self, filter_map_self] using hproj
    · obtain ⟨w0, hw0, hpr⟩ := h3 j q0 hq0
      refine ⟨w0, ?_, ?_⟩
      · simp only [List.getElem?_set]
        rw [if_neg (fun h => hji h.symm)]
        exact hw0
      · simpa [eventsOf_append, eventsOf_map_other hji, filter_map_other hji] using hpr

theorem Pool.Inv.launch {σ : Type} (lib : Geth) (config : Config) (s : σ) :
    (Pool.launch lib config s : Pool σ).Inv lib
      (config.PrivateKeys.enum.map (fun ik => sendTransaction lib config ik.2 ik.1)) := by
  refine ⟨by simp [Pool.launch], by simp [Pool.launch], by simp [Pool.launch], ?_⟩
  intro j p0 hp0
  refine ⟨some p0, ?_, ?_⟩
  · simp only [Pool.launch, List.getElem?_map] at hp0 ⊢
    cases hj : config.PrivateKeys.enum[j]? with
    | none => simp [hj] at hp0
    | some ik => simp [hj] at hp0 ⊢; exact hp0
  · simp [Projected, Pool.launch, eventsOf]

theorem Pool.Inv.worker {σ : Type} {lib : Geth} {progs : List (Prog TransactionResult)}
    {P : Pool σ} (h : P.Inv lib progs) {i : Nat} {w : Option (Prog TransactionResult)}
    (hw : P.workers[i]? = some w) :
    ∃ p0, progs[i]? = some p0 ∧
      Projected lib p0 w (eventsOf i P.trace) (P.results.filter (fun x => x.1 = i)) i := by
  obtain ⟨h1, _, _, h3⟩ := h
  have hi : i < progs.length := by
    by_contra hcon
    rw [List.getElem?_eq_none (by omega)] at hw
    simp at hw
  refine ⟨progs[i], List.getElem?_eq_getElem hi, ?_⟩
  obtain ⟨w0, hw0, hpr⟩ := h3 i progs[i] (List.getElem?_eq_getElem hi)
  rw [hw] at hw0
  simp only [Option.some.injEq] at hw0
  subst hw0
  exact hpr

theorem Pool.Inv.step {σ : Type} {lib : Geth} {progs : List (Prog TransactionResult)}
    {P : Pool σ} (L : Ledger σ) (h : P.Inv lib progs) (i : Nat) :
    (P.step lib L i).Inv lib progs := by
  unfold Pool.step
  split
  · exact h
  · exact h
  · rename_i result hw
    obtain ⟨p0, hp0, hm, hpr⟩ := h.worker hw
    have := h.update i p0 hp0 none [] [result] P.ledger (by
      refine ⟨result, by simp [hm], ?_⟩
      simpa [Prog.exec] using hpr [])
    simpa using this
  · rename_i account k hw
    obtain ⟨p0, hp0, hm, hpr⟩ := h.worker hw
    have := h.update i p0 hp0 (some (k (L.PendingNonceAt account P.ledger).1))
      [.PendingNonceAt account (L.PendingNonceAt account P.ledger).1] []
      (L.PendingNonceAt account P.ledger).2 (by
      refine ⟨by simp [hm], ?_⟩
      intro rs
      have := hpr (.nonce (L.PendingNonceAt account P.ledger).1 :: rs)
      simpa [Prog.exec, Event.response, scriptLedger_nonce] using this)
    simpa using this
  · rename_i k hw
    obtain ⟨p0, hp0, hm, hpr⟩ := h.worker hw
    have := h.update i p0 hp0 (some (k (L.SuggestGasPrice P.ledger).1))
      [.SuggestGasPrice (L.SuggestGasPrice P.ledger).1] []
      (L.SuggestGasPrice P.ledger).2 (by
      refine ⟨by simp [hm], ?_⟩
      intro rs
      have := hpr (.gasPrice (L.SuggestGasPrice P.ledger).1 :: rs)
      simpa [Prog.exec, Event.response, scriptLedger_gasPrice] using this)
    simpa using this
  · rename_i tx signer prv k hw
    obtain ⟨p0, hp0, hm, hpr⟩ := h.worker hw
    have := h.update i p0 hp0 (some (k (lib.SignTx tx signer prv)))
      [.SignTx tx signer (lib.SignTx tx signer prv)] [] P.ledger (by
      refine ⟨by simp [hm], ?_⟩
      intro rs
      have := hpr rs
      simpa [Prog.exec, Event.response] using this)
    simpa using this
  · rename_i tx k hw
    obtain ⟨p0, hp0, hm, hpr⟩ := h.worker hw
    have := h.update i p0 hp0 (some (k (L.SendTransaction tx P.ledger).1))
      [.SendTransaction tx (L.SendTransaction tx P.ledger).1] []
      (L.SendTransaction tx P.ledger).2 (by
      refine ⟨by simp [hm], ?_⟩
      intro rs
      have := hpr (.sent (L.SendTransaction tx P.ledger).1 :: rs)
      simpa [Prog.exec, Event.response, scriptLedger_sent] using this)
    simpa using this
  · rename_i line k hw
    obtain ⟨p0, hp0, hm, hpr⟩ := h.worker hw
    have := h.update i p0 hp0 (some k) [.Printf line] [] P.ledger (by
      refine ⟨by simp [hm], ?_⟩
      intro rs
      have := hpr rs
      simpa [Prog.exec, Event.response] using this)
    simpa using this

theorem Pool.Inv.run {σ : Type} {lib : Geth} {progs : List (Prog TransactionResult)}
    (L : Ledger σ) (sched : List Nat) {P : Pool σ} (h : P.Inv lib progs) :
    (P.run lib L sched).Inv lib progs := by
  induction sched generalizing P with
  | nil => exact h
  | cons i sched ih => exact ih (h.step L i)

theorem Pool.Inv.finish {σ : Type} {lib : Geth} {progs : List (Prog TransactionResult)}
    {P : Pool σ} (L : Ledger σ) (h : P.Inv lib progs) (i : Nat) :
    (P.finish lib L i).Inv lib progs := by
  unfold Pool.finish
  split
  · rename_i p hw
    obtain ⟨p0, hp0, hm, hpr⟩ := h.worker hw
    have := h.update i p0 hp0 none (p.exec lib L P.ledger).trace [(p.exec lib L P.ledger).value]
      (p.exec lib L P.ledger).ledger (by
      refine ⟨(p.exec lib L P.ledger).value, by simp [hm], ?_⟩
      have := hpr ((p.exec lib L P.ledger).trace.filterMap Event.response)
      rw [exec_replay] at this
      simpa using this)
    simpa using this
  · exact h

theorem Pool.finish_done {σ : Type} (lib : Geth) (L : Ledger σ) (i j : Nat) (P : Pool σ) :
    (P.finish lib L i).workers.length = P.workers.length ∧
    (P.workers[j]? = some none → (P.finish lib L i).workers[j]? = some none) ∧
    (i < P.workers.length → (P.finish lib L i).workers[i]? = some none) := by
  unfold Pool.finish
  split
  · rename_i p hw
    refine ⟨by simp, ?_, ?_⟩
    · intro hj
      by_cases hji : i = j
      · subst hji; rw [hw] at hj; simp at hj
      · simp [List.getElem?_set, hji, hj]
    · intro hi; simp [List.getElem?_set, hi]
  · rename_i hw
    refine ⟨rfl, fun hj => hj, ?_⟩
    intro hi
    rcases hwi : P.workers[i]? with _ | _ | p
    · rw [List.getElem?_eq_none_iff] at hwi; omega
    · rfl
    · exact absurd hwi (hw p)

theorem Pool.foldl_finish_done {σ : Type} (lib : Geth) (L : Ledger σ) (l : List Nat)
    (P : Pool σ) :
    (l.foldl (fun P i => P.finish lib L i) P).workers.length = P.workers.length ∧
    ∀ j, j < P.workers.length → (j ∈ l ∨ P.workers[j]? = some none) →
      (l.foldl (fun P i => P.finish lib L i) P).workers[j]? = some none := by
  induction l generalizing P with
  | nil => simp
  | cons i l ih =>
    obtain ⟨f1, _, _⟩ := Pool.finish_done lib L i i P
    obtain ⟨g1, g2⟩ := ih (P.finish lib L i)
    refine ⟨by simp only [List.foldl_cons]; rw [g1, f1], ?_⟩
    intro j hj hmem
    simp only [List.foldl_cons]
    apply g2 j (by rw [f1]; exact hj)
    by_cases hji : j = i
    · subst hji
      right
      exact (Pool.finish_done lib L j j P).2.2 hj
    · rcases hmem with hmem | hdone
      · left
        simpa [hji] using hmem
      · right
        exact (Pool.finish_done lib L i j P).2.1 hdone

theorem Pool.Inv.wait {σ : Type} {lib : Geth} {progs : List (Prog TransactionResult)}
    {P : Pool σ} (L : Ledger σ) (h : P.Inv lib progs) :
    (P.wait lib L).Inv lib progs ∧
      ∀ j, j < progs.length → (P.wait lib L).workers[j]? = some none := by
  have hfold : ∀ (l : List Nat) (Q : Pool σ), Q.Inv lib progs →
      (l.foldl (fun P i => P.finish lib L i) Q).Inv lib progs := by
    intro l
    induction l with
    | nil => intro Q hQ; exact hQ
    | cons i l ih => intro Q hQ; exact ih _ (hQ.finish L i)
  refine ⟨hfold _ P h, ?_⟩
  intro j hj
  have hlen : P.workers.length = progs.length := h.1
  exact (Pool.foldl_finish_done lib L (List.range P.workers.length) P).2 j (by omega)
    (Or.inl (by simp; omega))

/-- The pool after `dispatch`: every goroutine has returned, has sent exactly one result,
and this result together with the calls of the goroutine is the run of its
`sendTransaction` against the responses that the goroutine got. -/
theorem dispatch_projected {σ : Type} (lib : Geth) (L : Ledger σ) (config : Config) (s : σ)
    (sched : List Nat) (i : Nat) (key : GoString) (hkey : config.PrivateKeys[i]? = some key) :
    ∃ r, (dispatch lib L config s sched).results.filter (fun x => x.1 = i) = [(i, r)] ∧
      (sendTransaction lib config key i).exec lib scriptLedger
          (responsesTo i (dispatch lib L config s sched).trace) =
        { value := r, ledger := [], trace := eventsOf i (dispatch lib L config s sched).trace } := by
  have hinv := ((Pool.Inv.launch lib config s).run L sched).wait L
  obtain ⟨⟨h1, h2, _, h3⟩, hdone⟩ := hinv
  have hi : i < config.PrivateKeys.length := by
    by_contra hcon
    rw [List.getElem?_eq_none (by omega)] at hkey
    simp at hkey
  have hp0 : (config.PrivateKeys.enum.map (fun ik => sendTransaction lib config ik.2 ik.1))[i]?
      = some (sendTransaction lib config key i) := by
    simp [List.getElem?_map, List.getElem?_enum, hkey]
  obtain ⟨w, hw, hpr⟩ := h3 i _ hp0
  rw [hdone i (by simpa using hi)] at hw
  simp only [Option.some.injEq] at hw
  subst hw
  obtain ⟨r, hr1, hr2⟩ := hpr
  exact ⟨r, hr1, hr2⟩

theorem dispatch_index_lt {σ : Type} (lib : Geth) (L : Ledger σ) (config : Config) (s : σ)
    (sched : List Nat) :
    (∀ x ∈ (dispatch lib L config s sched).results, x.1 < config.PrivateKeys.length) ∧
    (∀ x ∈ (dispatch lib L config s sched).trace, x.1 < config.PrivateKeys.length) := by
  have hinv := (((Pool.Inv.launch lib config s).run L sched).wait L).1
  obtain ⟨_, h2, h3, _⟩ := hinv
  simp only [List.length_map, List.enum_length] at h2 h3
  exact ⟨h2, h3⟩

/-! ## C1: one outcome per key, and the summary -/

theorem count_map_fst (i : Nat) (l : List (Nat × TransactionResult)) :
    (l.map Prod.fst).count i = (l.filter (fun x => x.1 = i)).length := by
  induction l with
  | nil => simp
  | cons x l ih =>
    by_cases h : x.1 = i
    · simp [h, ih]
    · simp [List.count_cons, h, ih]

theorem dispatch_results_perm {σ : Type} (lib : Geth) (L : Ledger σ) (config : Config) (s : σ)
    (sched : List Nat) :
    ((dispatch lib L config s sched).results.map Prod.fst).Perm
      (List.range config.PrivateKeys.length) := by
  rw [List.perm_iff_count]
  intro i
  rw [count_map_fst]
  by_cases hi : i < config.PrivateKeys.length
  · obtain ⟨r, hr, _⟩ := dispatch_projected lib L config s sched i config.PrivateKeys[i]
      (List.getElem?_eq_getElem hi)
    rw [hr, List.count_eq_one_of_mem (List.nodup_range _) (List.mem_range.mpr hi)]
    rfl
  · rw [List.count_eq_zero_of_not_mem (by simpa using hi)]
    rw [List.length_eq_zero, List.filter_eq_nil_iff]
    intro x hx
    have := (dispatch_index_lt lib L config s sched).1 x hx
    simp
    omega

theorem collect_foldl (results : List TransactionResult) (t : Tally) :
    let f := fun (t : Tally) (result : TransactionResult) =>
      match result.Error with
      | some err =>
        { t with lines := t.lines ++ [Output.failed result.Address err],
                 failCount := t.failCount + 1 }
      | none =>
        { t with lines := t.lines ++ [Output.succeeded result.Address result.TxHash],
                 successCount := t.successCount + 1 }
    (results.foldl f t).successCount
        = t.successCount + results.countP (fun r => decide (r.Error = none)) ∧
    (results.foldl f t).failCount
        = t.failCount + results.countP (fun r => decide (r.Error ≠ none)) ∧
    ∀ line ∈ (results.foldl f t).lines, line ∈ t.lines ∨ line.isChainIDMismatch = false := by
  intro f
  induction results generalizing t with
  | nil =>
    simp only [List.foldl_nil, List.countP_nil, Nat.add_zero, true_and]
    intro line hl
    exact Or.inl hl
  | cons r rs ih =>
    obtain ⟨h1, h2, h3⟩ := ih (f t r)
    simp only [List.foldl_cons]
    cases hr : r.Error with
    | none =>
      refine ⟨?_, ?_, ?_⟩
      · rw [h1]; simp [f, hr]; omega
      · rw [h2]; simp [f, hr]
      · intro line hl
        rcases h3 line hl with h | h
        · simp [f, hr] at h
          rcases h with h | h
          · exact Or.inl h
          · right; subst h; rfl
        · exact Or.inr h
    | some e =>
      refine ⟨?_, ?_, ?_⟩
      · rw [h1]; simp [f, hr]
      · rw [h2]; simp [f, hr]; omega
      · intro line hl
        rcases h3 line hl with h | h
        · simp [f, hr] at h
          rcases h with h | h
          · exact Or.inl h
          · right; subst h; rfl
        · exact Or.inr h

theorem collect_counts (results : List TransactionResult) :
    (collect results).successCount = results.countP (fun r => decide (r.Error = none)) ∧
    (collect results).failCount = results.countP (fun r => decide (r.Error ≠ none)) ∧
    (collect results).successCount + (collect results).failCount = results.length ∧
    ∀ line ∈ (collect results).lines, line.isChainIDMismatch = false := by
  obtain ⟨h1, h2, h3⟩ := collect_foldl results { successCount := 0, failCount := 0, lines := [] }
  simp only [Nat.zero_add] at h1 h2
  have h1' : (collect results).successCount
      = results.countP (fun r => decide (r.Error = none)) := h1
  have h2' : (collect results).failCount
      = results.countP (fun r => decide (r.Error ≠ none)) := h2
  refine ⟨h1', h2', ?_, ?_⟩
  · rw [h1', h2']
    have := List.length_eq_countP_add_countP (fun r : TransactionResult => decide (r.Error = none))
      results
    rw [this]
    congr 1
    apply List.countP_congr
    intro x _
    simp
  · intro line hl
    rcases h3 line hl with h | h
    · simp at h
    · exact h

theorem loadConfig_ok {σ : Type} {W : World σ} {filename : GoString} {config : Config}
    (h : loadConfig W filename = .ok config) :
    1 ≤ config.PrivateKeys.length ∧ config.RpcUrl ≠ [] ∧ config.ToAddress ≠ [] := by
  unfold loadConfig at h
  split at h
  · simp at h
  · split at h
    · simp at h
    · split_ifs at h with h1 h2 h3
      simp only [Except.ok.injEq] at h
      subst h
      exact ⟨by omega, h2, h3⟩

theorem main_eq {σ : Type} (W : World σ) (sched : List Nat) (config : Config)
    (client : σ) (chainID : Int) (client' : σ)
    (hload : loadConfig W (ascii "config.json") = .ok config)
    (hdial : W.Dial config.RpcUrl = .ok client)
    (hnet : W.ledger.NetworkID client = (.ok chainID, client')) :
    main W sched = .ok
      { output :=
          (if Int64 chainID ≠ config.ChainID
            then [Output.chainIDMismatch config.ChainID (Int64 chainID)] else []) ++
          [.connected (Int64 chainID), .preparing config.PrivateKeys.length, .resultsHeader] ++
          (collect ((dispatch W.lib W.ledger config client' sched).results.map Prod.snd)).lines ++
          [.summaryHeader,
            .successCount (collect ((dispatch W.lib W.ledger config client' sched).results.map
              Prod.snd)).successCount,
            .failCount (collect ((dispatch W.lib W.ledger config client' sched).results.map
              Prod.snd)).failCount,
            .total ((collect ((dispatch W.lib W.ledger config client' sched).results.map
              Prod.snd)).successCount +
              (collect ((dispatch W.lib W.ledger config client' sched).results.map
              Prod.snd)).failCount)]
        results := (dispatch W.lib W.ledger config client' sched).results
        successCount := (collect ((dispatch W.lib W.ledger config client' sched).results.map
              Prod.snd)).successCount
        failCount := (collect ((dispatch W.lib W.ledger config client' sched).results.map
              Prod.snd)).failCount
        trace := (dispatch W.lib W.ledger config client' sched).trace
        ledger := (dispatch W.lib W.ledger config client' sched).ledger } := by
  simp only [main, hload, hdial, hnet]

/-- C1: for a valid configuration (one that `loadConfig` accepts: `N >= 1` keys), whatever
the ledger client returns and however the goroutines interleave, `main` runs to its end
and receives exactly `N` outcomes, one from the goroutine of each configured key; the
counters of the summary are the numbers of Success and of Failure outcomes, their sum is
`N`, and the last line printed is the total `N`. -/
theorem main_one_outcome_per_key {σ : Type} (W : World σ) (sched : List Nat) (config : Config)
    (client : σ) (chainID : Int) (client' : σ)
    (hload : loadConfig W (ascii "config.json") = .ok config)
    (hdial : W.Dial config.RpcUrl = .ok client)
    (hnet : W.ledger.NetworkID client = (.ok chainID, client')) :
    ∃ report, main W sched = .ok report ∧
      1 ≤ config.PrivateKeys.length ∧
      report.results.length = config.PrivateKeys.length ∧
      (report.results.map Prod.fst).Perm (List.range config.PrivateKeys.length) ∧
      report.successCount = report.results.countP (fun x => decide (x.2.Error = none)) ∧
      report.failCount = report.results.countP (fun x => decide (x.2.Error ≠ none)) ∧
      report.successCount + report.failCount = config.PrivateKeys.length ∧
      report.output.getLast? = some (.total config.PrivateKeys.length) := by
  refine ⟨_, main_eq W sched config client chainID client' hload hdial hnet, ?_⟩
  have hperm := dispatch_results_perm W.lib W.ledger config client' sched
  have hlen : (dispatch W.lib W.ledger config client' sched).results.length
      = config.PrivateKeys.length := by
    have := hperm.length_eq
    simpa using this
  obtain ⟨c1, c2, c3, _⟩ :=
    collect_counts ((dispatch W.lib W.ledger config client' sched).results.map Prod.snd)
  refine ⟨(loadConfig_ok hload).1, hlen, hperm, ?_, ?_, ?_, ?_⟩
  · simp only [c1, List.countP_map]; rfl
  · simp only [c2, List.countP_map]; rfl
  · simp only [c3, List.length_map, hlen]
  · simp only [c3, List.length_map, hlen]
    have : ∀ (l : List Output) (a b c d : Output), (l ++ [a, b, c, d]).getLast? = some d := by
      intro l a b c d
      have h : l ++ [a, b, c, d] = (l ++ [a, b, c]) ++ [d] := by simp
      rw [h, List.getLast?_concat]
    exact this _ _ _ _ _

/-- Witness of C1: two keys, the second one malformed, an interleaving of the two
goroutines. -/
theorem main_one_outcome_per_key_witness :
    ∃ report, main (worldOf okLedger { configA with PrivateKeys := [keyOne, ascii "0x"] })
        [1, 0, 0, 1] = .ok report ∧
      1 ≤ 2 ∧
      report.results.length = 2 ∧
      (report.results.map Prod.fst).Perm (List.range 2) ∧
      report.successCount = report.results.countP (fun x => decide (x.2.Error = none)) ∧
      report.failCount = report.results.countP (fun x => decide (x.2.Error ≠ none)) ∧
      report.successCount + report.failCount = 2 ∧
      report.output.getLast? = some (.total 2) :=
  main_one_outcome_per_key (worldOf okLedger { configA with PrivateKeys := [keyOne, ascii "0x"] })
    [1, 0, 0, 1] { configA with PrivateKeys := [keyOne, ascii "0x"] } () 56 ()
    (by rfl) (by rfl) (by rfl)

/-! ## C8: the chain identifier check -/

set_option maxRecDepth 100000

end BscBatchTx
